import Mathlib

/-!
Verification of the natural-language command core of the `hmr` CLI
(`src/fuzzy.rs`, `src/nl.rs`, registry data model from `src/cache.rs`).

Embedding conventions:
* Rust `f64` confidence/score arithmetic is modelled with exact rationals `ℚ`;
  every float literal of the source (`0.9`, `0.85`, …) denotes the same rational.
* `HashMap<String, Value>` (command parameters) and `serde_json::Map`
  (call payload) are modelled as association lists with replace-on-insert;
  iteration order is list order.
* The external skim fuzzy scorer (`SkimMatcherV2::fuzzy_match(choice, pattern)`
  from the `fuzzy_matcher` crate) is an abstract parameter `SkimOracle`.
* Rust Unicode case/character classes are modelled with Lean's ASCII
  `Char.toLower` / `Char.isAlphanum`; all concrete inputs here are ASCII.
* All definitions are structural so concrete runs reduce in the kernel.
-/

namespace Hmr

/-! Core-rational arithmetic wrappers. Mathlib marks `Rat.add`, `Rat.mul` and
`Rat.inv` irreducible and routes the `ℚ` notation through instance chains the
evaluator cannot unfold, so the embedding computes with the core functions
(locally semireducible) and bridges to the usual notation by `rfl` lemmas. -/

attribute [local semireducible] Rat.add Rat.mul Rat.inv

/-- `a + b` on `ℚ` via `Rat.add`. -/
def qadd (a b : ℚ) : ℚ := Rat.add a b

/-- `a * b` on `ℚ` via `Rat.mul`. -/
def qmul (a b : ℚ) : ℚ := Rat.mul a b

/-- `a / b` on `ℚ` via `Rat.div`. -/
def qdiv (a b : ℚ) : ℚ := Rat.div a b

/-- `-a` on `ℚ` via `Rat.neg`. -/
def qneg (a : ℚ) : ℚ := Rat.neg a

/-- Boolean `a ≤ b` on `ℚ` via `Rat.blt`. -/
def qleB (a b : ℚ) : Bool := !(Rat.blt b a)

/-- Boolean `a < b` on `ℚ` via `Rat.blt`. -/
def qltB (a b : ℚ) : Bool := Rat.blt a b

/-- The cast `Int → ℚ`. -/
def qofInt (n : Int) : ℚ := mkRat n 1

/-- The cast `Nat → ℚ`. -/
def qofNat (n : Nat) : ℚ := mkRat n 1


/-- ASCII lowercase of a string (Rust `str::to_lowercase` on ASCII data). -/
def lowerStr (s : String) : String := String.mk (s.data.map Char.toLower)

/-- `pre` is a prefix of `s` (Rust `str::starts_with`). -/
def startsWithStr (s pre : String) : Bool := pre.data.isPrefixOf s.data

/-- Substring containment on char lists (helper for Rust `str::contains`). -/
def containsSub (needle : List Char) : List Char → Bool
| [] => needle.isEmpty
| c :: t => needle.isPrefixOf (c :: t) || containsSub needle t

/-- Rust `str::contains(&str)`. -/
def containsStr (hay needle : String) : Bool := containsSub needle.data hay.data

/-- Rust `str::trim`: strip leading and trailing whitespace. -/
def trimStr (s : String) : String :=
  String.mk (((s.data.dropWhile Char.isWhitespace).reverse.dropWhile Char.isWhitespace).reverse)

/-- Rust `str::trim_matches(pat)`: strip leading/trailing chars satisfying `pat`. -/
def trimMatchesBy (pat : Char → Bool) (s : String) : String :=
  String.mk (((s.data.dropWhile pat).reverse.dropWhile pat).reverse)

/-- Join strings with a separator (Rust `[&str]::join`). -/
def joinSep (sep : String) : List String → String
| [] => ""
| [s] => s
| s :: rest => s ++ sep ++ joinSep sep rest

/-- Splitter for Rust `str::split(pattern)`: accumulator holds the current piece
reversed; empty pieces between adjacent separators are produced, as in Rust. -/
def splitPredAux (p : Char → Bool) : List Char → List Char → List String
| [], acc => [String.mk acc.reverse]
| c :: rest, acc =>
    if p c then String.mk acc.reverse :: splitPredAux p rest []
    else splitPredAux p rest (c :: acc)

/-- Rust `str::split(|c| p c)`. -/
def splitPred (p : Char → Bool) (s : String) : List String := splitPredAux p s.data []

/-- Rust byte length `str::len` (UTF-8). -/
def byteLen (s : String) : Nat := s.data.foldl (fun n c => n + c.utf8Size) 0

/-- Rust `f64::min` on the exact-rational model. -/
def fmin (a b : ℚ) : ℚ := if qleB a b then a else b

/-- Rust `f64::clamp` on the exact-rational model. -/
def fclamp (x lo hi : ℚ) : ℚ := if qltB x lo then lo else if qltB hi x then hi else x

/-- Rust `f64::round`: nearest integer, ties away from zero. -/
def roundHalfAway (q : ℚ) : Int :=
  if qleB (mkRat 0 1) q then Rat.floor (qadd q (mkRat 1 2))
  else -(Rat.floor (qadd (qneg q) (mkRat 1 2)))

/-! ## fuzzy.rs: constants, Match, MatchType, MatchResult -/

/-- `const MAX_EDIT_DISTANCE: usize = 2` (fuzzy.rs). -/
def MAX_EDIT_DISTANCE : Nat := 2

/-- `const MIN_FUZZY_SCORE: i64 = 50` (fuzzy.rs). -/
def MIN_FUZZY_SCORE : Int := 50

/-- `enum MatchType` (fuzzy.rs): how a match was found. -/
inductive MatchType where
| Exact : MatchType
| Prefix : MatchType
| Fuzzy : MatchType
| Typo : Nat → MatchType
deriving DecidableEq, Repr

/-- `MatchType::priority` (fuzzy.rs): sorting priority, lower is better. -/
def MatchType.priority : MatchType → Nat
| .Exact => 0
| .Prefix => 1
| .Typo 1 => 2
| .Typo 2 => 3
| .Fuzzy => 4
| .Typo _ => 5

/-- `struct Match<T>` (fuzzy.rs). -/
structure Match (T : Type) where
  item : T
  confidence : ℚ
  match_type : MatchType
  matched_input : String
  matched_on : String
deriving DecidableEq

/-- `Match::exact` (fuzzy.rs). -/
def Match.exact {T : Type} (item : T) (input matched_on : String) : Match T :=
  { item := item, confidence := mkRat 1 1, match_type := .Exact,
    matched_input := input, matched_on := matched_on }

/-- `Match::prefix` (fuzzy.rs); named `prefixM` in this embedding. -/
def Match.prefixM {T : Type} (item : T) (input matched_on : String) : Match T :=
  { item := item, confidence := mkRat 9 10, match_type := .Prefix,
    matched_input := input, matched_on := matched_on }

/-- `Match::fuzzy` (fuzzy.rs). -/
def Match.fuzzy {T : Type} (item : T) (input matched_on : String)
    (score max_score : Int) : Match T :=
  { item := item,
    confidence :=
      if 0 < max_score then fmin (qdiv (qofInt score) (qofInt max_score)) (mkRat 85 100)
      else mkRat 1 2,
    match_type := .Fuzzy, matched_input := input, matched_on := matched_on }

/-- `Match::typo` (fuzzy.rs). -/
def Match.typo {T : Type} (item : T) (input matched_on : String) (distance : Nat) : Match T :=
  { item := item,
    confidence := match distance with | 1 => mkRat 4 5 | 2 => mkRat 3 5 | _ => mkRat 2 5,
    match_type := .Typo distance, matched_input := input, matched_on := matched_on }

/-- `Match::map` (fuzzy.rs): transform the wrapped item, keep metadata. -/
def Match.mapItem {T U : Type} (m : Match T) (f : T → U) : Match U :=
  { item := f m.item, confidence := m.confidence, match_type := m.match_type,
    matched_input := m.matched_input, matched_on := m.matched_on }

/-- `enum MatchResult<T>` (fuzzy.rs). -/
inductive MatchResult (T : Type) where
| Single : Match T → MatchResult T
| Multiple : List (Match T) → MatchResult T
| None : MatchResult T
deriving DecidableEq

/-! ## Stable sorting (Rust `slice::sort_by` is a stable sort) -/

/-- Insert into a sorted list, after every element that may stay before `x`
(`le y x` true). This realises the stable order of Rust `sort_by`. -/
def insOrd {α : Type} (le : α → α → Bool) (x : α) : List α → List α
| [] => [x]
| y :: ys => if le y x then y :: insOrd le x ys else x :: y :: ys

/-- Stable insertion sort, extensionally Rust `sort_by` with comparator
`compare a b ≠ Greater ↔ le a b` for a total preorder. -/
def stableSortBy {α : Type} (le : α → α → Bool) (l : List α) : List α :=
  l.foldl (fun acc x => insOrd le x acc) []

/-- Descending-confidence comparator: `|a, b| b.confidence.partial_cmp(&a.confidence)`. -/
def confDescLe {T : Type} (a b : Match T) : Bool := qleB b.confidence a.confidence

/-- Priority-then-confidence comparator of `find_entity`'s fuzzy pass (fuzzy.rs). -/
def prioConfLe {T : Type} (a b : Match T) : Bool :=
  decide (a.match_type.priority < b.match_type.priority) ||
    (decide (a.match_type.priority = b.match_type.priority) &&
      qleB b.confidence a.confidence)

/-! ## fuzzy.rs: levenshtein and to_singular -/

/-- One inner step of the rolling-row Levenshtein: given the remaining `b`
characters, the current `a` character, the value just computed to the left and
the previous row from the current column on, produce the rest of the row. -/
def levStep (ach : Char) : List Char → Nat → List Nat → List Nat
| [], _, _ => []
| bch :: brest, left, prevs =>
    match prevs with
    | pj :: pj1 :: prest =>
        let cost := if ach = bch then 0 else 1
        let v := min (pj1 + 1) (min (left + 1) (pj + cost))
        v :: levStep ach brest v (pj1 :: prest)
    | _ => []

/-- The row loop of `levenshtein` (fuzzy.rs): fold each `a` character over the
previous row. -/
def levRows (bc : List Char) : List Char → Nat → List Nat → List Nat
| [], _, prev => prev
| ach :: arest, i, prev => levRows bc arest (i + 1) ((i + 1) :: levStep ach bc (i + 1) prev)

/-- `levenshtein` (fuzzy.rs): bounded edit distance with empty-string shortcuts
and the length-difference early return. -/
def levenshtein (a b : String) : Nat :=
  let a_chars := a.data
  let b_chars := b.data
  let a_len := a_chars.length
  let b_len := b_chars.length
  if a_len = 0 then b_len
  else if b_len = 0 then a_len
  else if MAX_EDIT_DISTANCE < (max a_len b_len - min a_len b_len) then MAX_EDIT_DISTANCE + 1
  else (levRows b_chars a_chars 0 (List.range (b_len + 1))).getD b_len 0

/-- Rust `str::ends_with`. -/
def endsWithStr (s suf : String) : Bool := suf.data.isSuffixOf s.data

/-- `to_singular` (fuzzy.rs): basic plural stripping. -/
def to_singular (word : String) : String :=
  if endsWithStr word "ies" ∧ 3 < word.data.length then
    String.mk (word.data.take (word.data.length - 3)) ++ "y"
  else if endsWithStr word "es" ∧ 2 < word.data.length then
    String.mk (word.data.take (word.data.length - 2))
  else if endsWithStr word "s" ∧ 1 < word.data.length then
    String.mk (word.data.take (word.data.length - 1))
  else word

/-! ## cache.rs: the registry data model (read-only view used by the matcher) -/

/-- `struct CachedEntity` (cache.rs). -/
structure CachedEntity where
  entity_id : String
  domain : String
  object_id : String
  state : String
  friendly_name : Option String
  area_id : Option String
  search_names : List String
deriving DecidableEq

/-- `struct CachedArea` (cache.rs). -/
structure CachedArea where
  area_id : String
  name : String
  aliases : List String
  search_names : List String
deriving DecidableEq

/-- `struct CachedService` (cache.rs). -/
structure CachedService where
  domain : String
  service : String
  full_name : String
  description : String
deriving DecidableEq

/-- `struct Cache` (cache.rs): the accessors `entities()`, `areas()` and
`services()` return the stored lists (empty when absent), so the cache is
modelled by the three lists themselves. -/
structure Cache where
  entities : List CachedEntity
  areas : List CachedArea
  services : List CachedService
deriving DecidableEq

/-- Boolean lexicographic comparison of char lists by code point (for ASCII
data this is Rust's byte-wise `&str` ordering). -/
def charListLtB : List Char → List Char → Bool
| [], [] => false
| [], _ :: _ => true
| _ :: _, [] => false
| a :: as, b :: bs =>
    if a.toNat < b.toNat then true
    else if b.toNat < a.toNat then false
    else charListLtB as bs

/-- Boolean string comparison (Rust `&str` `Ord` on ASCII data). -/
def strLtB (a b : String) : Bool := charListLtB a.data b.data

/-- Remove adjacent duplicates (Rust `Vec::dedup`). -/
def dedupAdj : List String → List String
| [] => []
| [a] => [a]
| a :: b :: rest => if a = b then dedupAdj (b :: rest) else a :: dedupAdj (b :: rest)

/-- `Cache::domains` (cache.rs): distinct entity domains, sorted then deduped. -/
def Cache.domains (c : Cache) : List String :=
  dedupAdj (stableSortBy (fun a b => !strLtB b a) (c.entities.map (fun e => e.domain)))

/-- `Cache::entities_in_domain` (cache.rs). -/
def Cache.entities_in_domain (c : Cache) (domain : String) : List CachedEntity :=
  c.entities.filter (fun e => e.domain == domain)

/-- `Cache::entities_in_area` (cache.rs). -/
def Cache.entities_in_area (c : Cache) (area_id : String) : List CachedEntity :=
  c.entities.filter (fun e => e.area_id == some area_id)

/-- `Cache::services_for_domain` (cache.rs): the per-domain service-name list
built by `set_services` in file order. -/
def Cache.services_for_domain (c : Cache) (domain : String) : List String :=
  (c.services.filter (fun s => s.domain == domain)).map (fun s => s.service)

/-- The external skim scorer `SkimMatcherV2::fuzzy_match(choice, pattern)`
(the `fuzzy_matcher` crate), abstracted as a parameter of the embedding. -/
structure SkimOracle where
  fuzzyMatch : String → String → Option Int

/-! ## fuzzy.rs: find_entity -/

/-- First pass of `find_entity` (fuzzy.rs): exact entity id / object id /
friendly-name match, first hit short-circuits. -/
def entityExactPass (input input_lower : String) : List CachedEntity → Option (Match CachedEntity)
| [] => none
| e :: rest =>
    if e.entity_id == input || e.entity_id == input_lower then
      some (Match.exact e input e.entity_id)
    else if e.object_id == input_lower then
      some (Match.exact e input e.object_id)
    else
      match e.friendly_name with
      | some name =>
          if lowerStr name == input_lower then some (Match.exact e input name)
          else entityExactPass input input_lower rest
      | none => entityExactPass input input_lower rest

/-- Second pass of `find_entity` (fuzzy.rs): first search name of each entity
whose lowercase form starts with the input. -/
def entityPrefixPass (input input_lower : String) (entities : List CachedEntity) :
    List (Match CachedEntity) :=
  entities.filterMap (fun e =>
    (e.search_names.find? (fun sn => startsWithStr (lowerStr sn) input_lower)).map
      (fun sn => Match.prefixM e input sn))

/-- Third pass of `find_entity` (fuzzy.rs): first search name of each entity at
edit distance in (0, MAX_EDIT_DISTANCE]. -/
def entityTypoPass (input input_lower : String) (entities : List CachedEntity) :
    List (Match CachedEntity) :=
  entities.filterMap (fun e =>
    (e.search_names.find? (fun sn =>
        let d := levenshtein input_lower (lowerStr sn)
        decide (d ≤ MAX_EDIT_DISTANCE) && decide (0 < d))).map
      (fun sn => Match.typo e input sn (levenshtein input_lower (lowerStr sn))))

/-- The best-scoring search name of one entity in `find_entity`'s fuzzy pass
(fuzzy.rs): strictly improving scores at or above the minimum. -/
def entityBestFuzzy (o : SkimOracle) (input_lower : String) (e : CachedEntity) : Int × String :=
  e.search_names.foldl (fun acc sn =>
    match o.fuzzyMatch sn input_lower with
    | some score => if acc.1 < score ∧ MIN_FUZZY_SCORE ≤ score then (score, sn) else acc
    | none => acc) (0, "")

/-- Fourth pass of `find_entity` (fuzzy.rs): one fuzzy match per entity whose
best score reaches MIN_FUZZY_SCORE; estimated max score is `input.len() * 16`. -/
def entityFuzzyPass (o : SkimOracle) (input input_lower : String)
    (entities : List CachedEntity) : List (Match CachedEntity) :=
  let max_possible_score : Int := (byteLen input : Int) * 16
  entities.filterMap (fun e =>
    let best := entityBestFuzzy o input_lower e
    if MIN_FUZZY_SCORE ≤ best.1 then
      some (Match.fuzzy e input best.2 best.1 max_possible_score)
    else none)

/-- `FuzzyMatcher::find_entity` (fuzzy.rs): the four-tier cascade over entities. -/
def find_entity (o : SkimOracle) (input : String) (cache : Cache) : MatchResult CachedEntity :=
  let input_lower := lowerStr input
  let entities := cache.entities
  match entityExactPass input input_lower entities with
  | some m => .Single m
  | none =>
    let pm := entityPrefixPass input input_lower entities
    match pm with
    | [m] => .Single m
    | _ :: _ :: _ => .Multiple pm
    | [] =>
      let tm := entityTypoPass input input_lower entities
      match tm with
      | [m] => .Single m
      | _ :: _ :: _ => .Multiple (stableSortBy confDescLe tm)
      | [] =>
        let fz := entityFuzzyPass o input input_lower entities
        match fz with
        | [] => .None
        | _ =>
          let sorted := stableSortBy prioConfLe fz
          match sorted with
          | [m] => .Single m
          | _ => .Multiple sorted

/-! ## fuzzy.rs: find_area -/

/-- Exact pass of `find_area` (fuzzy.rs): area id, name or alias. -/
def areaExactPass (input input_lower : String) : List CachedArea → Option (Match CachedArea)
| [] => none
| a :: rest =>
    if a.area_id == input_lower || lowerStr a.name == input_lower then
      some (Match.exact a input a.name)
    else
      match a.aliases.find? (fun al => lowerStr al == input_lower) with
      | some al => some (Match.exact a input al)
      | none => areaExactPass input input_lower rest

/-- Prefix pass of `find_area` (fuzzy.rs). -/
def areaPrefixPass (input input_lower : String) (areas : List CachedArea) :
    List (Match CachedArea) :=
  areas.filterMap (fun a =>
    (a.search_names.find? (fun sn => startsWithStr (lowerStr sn) input_lower)).map
      (fun sn => Match.prefixM a input sn))

/-- Typo pass of `find_area` (fuzzy.rs). -/
def areaTypoPass (input input_lower : String) (areas : List CachedArea) :
    List (Match CachedArea) :=
  areas.filterMap (fun a =>
    (a.search_names.find? (fun sn =>
        let d := levenshtein input_lower (lowerStr sn)
        decide (d ≤ MAX_EDIT_DISTANCE) && decide (0 < d))).map
      (fun sn => Match.typo a input sn (levenshtein input_lower (lowerStr sn))))

/-- Fuzzy pass of `find_area` (fuzzy.rs): the first search name whose score
reaches MIN_FUZZY_SCORE qualifies the area (then break). -/
def areaFuzzyPass (o : SkimOracle) (input input_lower : String) (areas : List CachedArea) :
    List (Match CachedArea) :=
  let max_score : Int := (byteLen input : Int) * 16
  areas.filterMap (fun a =>
    a.search_names.findSome? (fun sn =>
      match o.fuzzyMatch sn input_lower with
      | some score =>
          if MIN_FUZZY_SCORE ≤ score then some (Match.fuzzy a input sn score max_score)
          else none
      | none => none))

/-- `FuzzyMatcher::find_area` (fuzzy.rs). -/
def find_area (o : SkimOracle) (input : String) (cache : Cache) : MatchResult CachedArea :=
  let input_lower := lowerStr input
  let areas := cache.areas
  match areaExactPass input input_lower areas with
  | some m => .Single m
  | none =>
    let pm := areaPrefixPass input input_lower areas
    match pm with
    | [m] => .Single m
    | _ :: _ :: _ => .Multiple pm
    | [] =>
      let tm := areaTypoPass input input_lower areas
      match tm with
      | [] =>
        let fz := areaFuzzyPass o input input_lower areas
        match fz with
        | [] => .None
        | _ =>
          let sorted := stableSortBy confDescLe fz
          match sorted with
          | [m] => .Single m
          | _ => .Multiple sorted
      | _ =>
        let sorted := stableSortBy confDescLe tm
        match sorted with
        | [m] => .Single m
        | _ => .Multiple sorted

/-! ## fuzzy.rs: find_service -/

/-- The `domain.service` split of `find_service` (fuzzy.rs): `splitn(2, '.')`. -/
def serviceSplit (input input_lower : String) : Option String × Option String :=
  if containsStr input "." then
    let parts := splitPred (fun c => c == '.') input
    (some (lowerStr (parts.headD "")),
     some (lowerStr (joinSep "." (parts.drop 1))))
  else (none, some input_lower)

/-- Exact pass of `find_service` (fuzzy.rs). -/
def serviceExactPass (input input_lower : String) (domain_filter service_part : Option String) :
    List CachedService → Option (Match CachedService)
| [] => none
| s :: rest =>
    if lowerStr s.full_name == input_lower then
      some (Match.exact s input s.full_name)
    else
      match service_part with
      | some sp =>
          if lowerStr s.service == sp ∧
              (domain_filter = none ∨ domain_filter = some (lowerStr s.domain)) then
            some (Match.exact s input s.full_name)
          else serviceExactPass input input_lower domain_filter service_part rest
      | none => serviceExactPass input input_lower domain_filter service_part rest

/-- Prefix pass of `find_service` (fuzzy.rs). -/
def servicePrefixPass (input input_lower : String) (services : List CachedService) :
    List (Match CachedService) :=
  services.filterMap (fun s =>
    if startsWithStr (lowerStr s.full_name) input_lower then
      some (Match.prefixM s input s.full_name)
    else none)

/-- Typo pass of `find_service` (fuzzy.rs). -/
def serviceTypoPass (input input_lower : String) (services : List CachedService) :
    List (Match CachedService) :=
  services.filterMap (fun s =>
    let d := levenshtein input_lower (lowerStr s.full_name)
    if d ≤ MAX_EDIT_DISTANCE ∧ 0 < d then
      some (Match.typo s input s.full_name d)
    else none)

/-- Fuzzy pass of `find_service` (fuzzy.rs). -/
def serviceFuzzyPass (o : SkimOracle) (input input_lower : String)
    (services : List CachedService) : List (Match CachedService) :=
  let max_score : Int := (byteLen input : Int) * 16
  services.filterMap (fun s =>
    match o.fuzzyMatch s.full_name input_lower with
    | some score =>
        if MIN_FUZZY_SCORE ≤ score then some (Match.fuzzy s input s.full_name score max_score)
        else none
    | none => none)

/-- `FuzzyMatcher::find_service` (fuzzy.rs). -/
def find_service (o : SkimOracle) (input : String) (cache : Cache) : MatchResult CachedService :=
  let input_lower := lowerStr input
  let services := cache.services
  let dsp := serviceSplit input input_lower
  match serviceExactPass input input_lower dsp.1 dsp.2 services with
  | some m => .Single m
  | none =>
    let pm := servicePrefixPass input input_lower services
    match pm with
    | [m] => .Single m
    | _ :: _ :: _ => .Multiple pm
    | [] =>
      let tm := serviceTypoPass input input_lower services
      match tm with
      | [] =>
        let fz := serviceFuzzyPass o input input_lower services
        match fz with
        | [] => .None
        | _ =>
          let sorted := stableSortBy confDescLe fz
          match sorted with
          | [m] => .Single m
          | _ => .Multiple sorted
      | _ =>
        let sorted := stableSortBy confDescLe tm
        match sorted with
        | [m] => .Single m
        | _ => .Multiple sorted

/-! ## fuzzy.rs: find_domain (no fuzzy tier in the source) -/

/-- Exact pass of `find_domain` (fuzzy.rs): the input or its singular form. -/
def domainExactPass (input input_lower singular : String) (domains : List String) :
    Option (Match String) :=
  (domains.find? (fun d => d == input_lower || d == singular)).map
    (fun d => Match.exact d input d)

/-- Prefix pass of `find_domain` (fuzzy.rs). -/
def domainPrefixPass (input input_lower singular : String) (domains : List String) :
    List (Match String) :=
  domains.filterMap (fun d =>
    if startsWithStr d input_lower || startsWithStr d singular then
      some (Match.prefixM d input d)
    else none)

/-- Typo pass of `find_domain` (fuzzy.rs). -/
def domainTypoPass (input input_lower : String) (domains : List String) :
    List (Match String) :=
  domains.filterMap (fun d =>
    let dist := levenshtein input_lower d
    if dist ≤ MAX_EDIT_DISTANCE ∧ 0 < dist then some (Match.typo d input d dist) else none)

/-- `FuzzyMatcher::find_domain` (fuzzy.rs): Exact, Prefix, Typo — then None. -/
def find_domain (input : String) (cache : Cache) : MatchResult String :=
  let input_lower := lowerStr input
  let domains := cache.domains
  let singular := to_singular input_lower
  match domainExactPass input input_lower singular domains with
  | some m => .Single m
  | none =>
    let pm := domainPrefixPass input input_lower singular domains
    match pm with
    | [m] => .Single m
    | _ :: _ :: _ => .Multiple pm
    | [] =>
      let tm := domainTypoPass input input_lower domains
      match tm with
      | [] => .None
      | _ =>
        let sorted := stableSortBy confDescLe tm
        match sorted with
        | [m] => .Single m
        | _ => .Multiple sorted

/-! ## fuzzy.rs: best(), composite lookups -/

/-- `MatchResult::best` (fuzzy.rs): Single directly; nonempty Multiple sorts
descending by confidence and returns the head (both source branches return the
sorted head; the 0.2-gap test does not change the returned element). -/
def MatchResult.best {T : Type} : MatchResult T → Option (Match T)
| .Single m => some m
| .Multiple [] => Option.none
| .Multiple [m] => some m
| .Multiple (m0 :: m1 :: rest) => some ((stableSortBy confDescLe (m0 :: m1 :: rest)).headD m0)
| .None => Option.none

/-- `FuzzyMatcher::find_entities_in_domain` (fuzzy.rs): exact domain, then the
singular form when the plural finds nothing. -/
def find_entities_in_domain (domain : String) (cache : Cache) : List CachedEntity :=
  let domain_lower := lowerStr domain
  let singular := to_singular domain_lower
  let entities := cache.entities_in_domain domain_lower
  if entities.isEmpty ∧ domain_lower ≠ singular then cache.entities_in_domain singular
  else entities

/-- `FuzzyMatcher::find_entities_in_area` (fuzzy.rs). -/
def find_entities_in_area (o : SkimOracle) (area_input : String) (cache : Cache) :
    List CachedEntity :=
  match (find_area o area_input cache).best with
  | some area_match => cache.entities.filter (fun e => e.area_id == some area_match.item.area_id)
  | none => []

/-! ## nl.rs: JSON values, action table -/

/-- The `serde_json::Value` payloads this core builds: i64 integers, f64
numbers (exact-rational model) and strings. -/
inductive JValue where
| jint : Int → JValue
| jnum : ℚ → JValue
| jstr : String → JValue
deriving DecidableEq

/-- `serde_json::Value::as_i64`: only i64-backed integers. -/
def JValue.as_i64 : JValue → Option Int
| .jint n => some n
| _ => none

/-- `Display` of a `serde_json::Value` as used in interpretation strings. -/
def JValue.render : JValue → String
| .jint n => toString n
| .jnum q => toString q
| .jstr s => "\"" ++ s ++ "\""

/-- Replace-on-insert map update (`HashMap::insert` / `serde_json::Map::insert`). -/
def mapInsert (m : List (String × JValue)) (k : String) (v : JValue) :
    List (String × JValue) :=
  if m.any (fun kv => kv.1 == k) then m.map (fun kv => if kv.1 == k then (k, v) else kv)
  else m ++ [(k, v)]

/-- Map lookup (`HashMap::get` / `serde_json::Map` indexing). -/
def mapLookup (m : List (String × JValue)) (k : String) : Option JValue :=
  (m.find? (fun kv => kv.1 == k)).map (fun kv => kv.2)

/-- `struct ActionMapping` (nl.rs): the domain-override map is an association
list (`HashMap` with distinct literal keys in the source table). -/
structure ActionMapping where
  trigger_words : List String
  default_service : String
  domain_overrides : List (String × String)
  infers_domain : Bool
deriving DecidableEq

/-- `ActionMapping::service_for_domain` (nl.rs). -/
def ActionMapping.service_for_domain (m : ActionMapping) (domain : String) : String :=
  ((m.domain_overrides.find? (fun kv => kv.1 == domain)).map (fun kv => kv.2)).getD
    m.default_service

/-- `action_mappings` (nl.rs): the static action vocabulary table, in source
order. -/
def action_mappings : List ActionMapping := [
  ⟨["on", "turn_on", "enable", "activate", "start"], "turn_on", [], true⟩,
  ⟨["off", "turn_off", "disable", "deactivate", "stop", "kill"], "turn_off", [], true⟩,
  ⟨["toggle", "switch", "flip"], "toggle", [], true⟩,
  ⟨["open", "unlock"], "open_cover",
    [("cover", "open_cover"), ("lock", "unlock"), ("valve", "open_valve")], true⟩,
  ⟨["close", "shut", "lock"], "close_cover",
    [("cover", "close_cover"), ("lock", "lock"), ("valve", "close_valve")], true⟩,
  ⟨["dim", "lower", "decrease", "reduce"], "turn_on", [], false⟩,
  ⟨["brighten", "raise", "increase", "brighter"], "turn_on", [], false⟩,
  ⟨["set"], "turn_on", [], true⟩,
  ⟨["volume_up", "louder", "volume up"], "volume_up", [("media_player", "volume_up")], false⟩,
  ⟨["volume_down", "quieter", "softer", "volume down"], "volume_down",
    [("media_player", "volume_down")], false⟩,
  ⟨["volume_set", "volume"], "volume_set", [("media_player", "volume_set")], false⟩,
  ⟨["mute", "silence"], "volume_mute", [("media_player", "volume_mute")], false⟩,
  ⟨["unmute"], "volume_mute", [("media_player", "volume_mute")], false⟩]

/-! ## nl.rs: parsed command data model -/

/-- `struct ParsedTarget` (nl.rs). -/
structure ParsedTarget where
  entity_id : String
  friendly_name : Option String
  match_type : String
  matched_input : String
deriving DecidableEq

/-- `struct ParsedCommand` (nl.rs); parameters are the association-list model
of the `HashMap`. -/
structure ParsedCommand where
  original : String
  action : Option String
  targets : List ParsedTarget
  parameters : List (String × JValue)
  confidence : ℚ
  interpretation : String
  notes : List String
  matched_area : Option String
deriving DecidableEq

/-- The derived `Debug` rendering of `MatchType` used by
`From<Match<&CachedEntity>> for ParsedTarget` (nl.rs). -/
def MatchType.debugStr : MatchType → String
| .Exact => "Exact"
| .Prefix => "Prefix"
| .Fuzzy => "Fuzzy"
| .Typo d => "Typo \x7b distance: " ++ toString d ++ " \x7d"

/-- `From<Match<&CachedEntity>> for ParsedTarget` (nl.rs). -/
def ParsedTarget.ofMatch (m : Match CachedEntity) : ParsedTarget :=
  { entity_id := m.item.entity_id, friendly_name := m.item.friendly_name,
    match_type := m.match_type.debugStr, matched_input := m.matched_input }

/-! ## nl.rs: tokenizer and token classifiers -/

/-- `is_stop_word` (nl.rs). -/
def is_stop_word (word : String) : Bool :=
  lowerStr word == "the" || lowerStr word == "a" || lowerStr word == "an" ||
  lowerStr word == "to" || lowerStr word == "in" || lowerStr word == "at" ||
  lowerStr word == "for" || lowerStr word == "and" || lowerStr word == "my" ||
  lowerStr word == "please"

/-- `tokenize` (nl.rs): split on whitespace and commas, trim each piece of
edge characters that are not alphanumeric, `%`, `_` or `.`, drop empties and
stop words. -/
def tokenize (input : String) : List String :=
  ((splitPred (fun c => c.isWhitespace || c == ',') input).map
      (trimMatchesBy (fun c => !(c.isAlphanum || c == '%' || c == '_' || c == '.')))
    |>.filter (fun s => !s.isEmpty)
    |>.filter (fun s => !is_stop_word s))

/-- `parse_number` (nl.rs): Rust `i64::from_str` — optional sign, decimal
digits, i64 range. -/
def parse_number (s : String) : Option Int :=
  let cs := s.data
  let signed : Int × List Char :=
    match cs with
    | '+' :: rest => (1, rest)
    | '-' :: rest => (-1, rest)
    | _ => (1, cs)
  if signed.2.isEmpty then none
  else if signed.2.all Char.isDigit then
    let n : Int := signed.1 * (signed.2.foldl (fun acc c => acc * 10 + (c.toNat - 48)) 0 : Nat)
    if -(2 ^ 63) ≤ n ∧ n ≤ 2 ^ 63 - 1 then some n else none
  else none

/-- `parse_percentage` (nl.rs): strip trailing `%`, parse, accept 0..=100. -/
def parse_percentage (s : String) : Option Int :=
  let stripped := String.mk (s.data.reverse.dropWhile (fun c => c == '%')).reverse
  match parse_number stripped with
  | some num => if 0 ≤ num ∧ num ≤ 100 then some num else none
  | none => none

/-- `NLParser::find_action_with_mapping` (nl.rs): first table entry whose
trigger set contains the lowercased token. -/
def find_action_with_mapping (actions : List ActionMapping) (token : String) :
    Option (String × ActionMapping) :=
  (actions.find? (fun m => m.trigger_words.contains (lowerStr token))).map
    (fun m => (m.default_service, m))

/-- `NLParser::find_action` (nl.rs). -/
def find_action (actions : List ActionMapping) (token : String) : Option String :=
  (find_action_with_mapping actions token).map (fun am => am.1)

/-- `NLParser::find_domain` (nl.rs): the parser-side wrapper returning only an
unambiguous domain. -/
def find_domain_opt (token : String) (cache : Cache) : Option String :=
  match find_domain token cache with
  | .Single m => some m.item
  | _ => none

/-! ## nl.rs: the action-extraction scan of `parse` -/

/-- The mutable state of `parse`'s first token loop (nl.rs lines 274-324). -/
structure ScanState where
  action : Option String
  mapping : Option ActionMapping
  found : Bool
  nonAction : List String
deriving DecidableEq

/-- The per-token tail of the scan loop (nl.rs): accept the first action
token, push everything else. -/
def stepAction (actions : List ActionMapping) (tok : String) (st : ScanState) : ScanState :=
  match find_action_with_mapping actions tok with
  | some am =>
      if !st.found then
        { st with action := some am.1, mapping := some am.2, found := true }
      else { st with nonAction := st.nonAction ++ [tok] }
  | none => { st with nonAction := st.nonAction ++ [tok] }

/-- The scan loop of `parse` (nl.rs): absorb "turn" before an action token,
absorb "volume up"/"volume down" as compound actions (skipping the next
token), otherwise treat the token through `stepAction`. -/
def scanTokens (actions : List ActionMapping) : List String → ScanState → ScanState
| [], st => st
| [tok], st => stepAction actions tok st
| tok :: next :: rest, st =>
    if lowerStr tok == "turn" && (find_action_with_mapping actions next).isSome then
      scanTokens actions (next :: rest) st
    else if lowerStr tok == "volume" && lowerStr next == "up" && !st.found then
      scanTokens actions rest
        { st with action := some "volume_up",
                  mapping := actions.find? (fun m => m.trigger_words.contains "volume_up"),
                  found := true }
    else if lowerStr tok == "volume" && lowerStr next == "down" && !st.found then
      scanTokens actions rest
        { st with action := some "volume_down",
                  mapping := actions.find? (fun m => m.trigger_words.contains "volume_down"),
                  found := true }
    else scanTokens actions (next :: rest) (stepAction actions tok st)

/-! ## nl.rs: confidence, interpretation -/

/-- `NLParser::calculate_confidence` (nl.rs). -/
def calculate_confidence (r : ParsedCommand) : ℚ :=
  qadd (qadd (qadd
    (if r.action.isSome then mkRat 3 10 else mkRat 0 1)
    (if !r.targets.isEmpty then
      qmul (mkRat 2 5) (fmin (qdiv (mkRat 1 1) (qofNat r.targets.length)) (mkRat 1 1))
    else mkRat 0 1))
    (if !r.parameters.isEmpty then mkRat 1 5 else mkRat 0 1))
    (if r.notes.isEmpty then mkRat 1 10 else mkRat 0 1)

/-- `NLParser::build_interpretation` (nl.rs). -/
def build_interpretation (r : ParsedCommand) (domain_hint : Option String) : String :=
  let actionPart : List String := match r.action with | some a => [a] | none => []
  let targetPart : List String :=
    if !r.targets.isEmpty then
      [joinSep ", " (r.targets.map (fun t => t.friendly_name.getD t.entity_id))]
    else match domain_hint with
      | some domain => ["all " ++ domain ++ "s"]
      | none => []
  let paramPart : List String := r.parameters.map (fun kv => kv.1 ++ "=" ++ kv.2.render)
  joinSep " " (actionPart ++ targetPart ++ paramPart)

/-- The shared tail of both exits of the main parse path (nl.rs): compute the
confidence of the result, then its interpretation. -/
def finishCommand (r : ParsedCommand) (domain_hint : Option String) : ParsedCommand :=
  let r1 := { r with confidence := calculate_confidence r }
  { r1 with interpretation := build_interpretation r1 domain_hint }

/-! ## nl.rs: the priority passes of `parse` -/

/-- The kind-specific confidence floor of the parse path's entity acceptance
(nl.rs, repeated at priorities 1, 3 and 4). -/
def p1MinConf : MatchType → ℚ
| .Exact => mkRat 0 1
| .Prefix => mkRat 0 1
| .Typo _ => mkRat 3 5
| .Fuzzy => mkRat 13 20

/-- Whether a Single entity match clears its kind's confidence floor. -/
def clearsFloor (m : Match CachedEntity) : Bool := qleB (p1MinConf m.match_type) m.confidence

/-- Parameter re-extraction inside the priority-1 early return (nl.rs):
numbers become `value`, percentages `volume_pct`/`brightness_pct`. -/
def extractParams (isVolume : Bool) : List String → List (String × JValue) →
    List (String × JValue)
| [], ps => ps
| t :: rest, ps =>
    match parse_number t with
    | some n => extractParams isVolume rest (mapInsert ps "value" (.jint n))
    | none =>
      match parse_percentage t with
      | some pct =>
          extractParams isVolume rest
            (mapInsert ps (if isVolume then "volume_pct" else "brightness_pct") (.jint pct))
      | none => extractParams isVolume rest ps

/-- The mutable state of the priority-2 classification loop (nl.rs). -/
structure ClassState where
  params : List (String × JValue)
  domain_hint : Option String
  area_hint : Option String
  matched_area : Option String
  remaining : List String
deriving DecidableEq

/-- Priority-2 classification (nl.rs): number, percentage, domain, area, or
residual token, in that order. -/
def classifyTokens (o : SkimOracle) (cache : Cache) (isVolume : Bool) :
    List String → ClassState → ClassState
| [], st => st
| t :: rest, st =>
    match parse_number t with
    | some n =>
        classifyTokens o cache isVolume rest { st with params := mapInsert st.params "value" (.jint n) }
    | none =>
      match parse_percentage t with
      | some pct =>
          let param_name := if isVolume then "volume_pct" else "brightness_pct"
          classifyTokens o cache isVolume rest
            { st with params := mapInsert st.params param_name (.jint pct) }
      | none =>
        match find_domain_opt t cache with
        | some domain =>
            classifyTokens o cache isVolume rest { st with domain_hint := some domain }
        | none =>
          match find_area o t cache with
          | .Single area_match =>
              classifyTokens o cache isVolume rest
                { st with area_hint := some area_match.item.area_id,
                          matched_area := some area_match.item.area_id }
          | _ => classifyTokens o cache isVolume rest { st with remaining := st.remaining ++ [t] }

/-- Priority 3 (nl.rs): first residual+area combination giving a Single match
that clears the floor. -/
def firstComboMatch (o : SkimOracle) (cache : Cache) : List String → Option (Match CachedEntity)
| [] => none
| combo :: rest =>
    match find_entity o combo cache with
    | .Single m => if clearsFloor m then some m else firstComboMatch o cache rest
    | _ => firstComboMatch o cache rest

/-- Priority 4 (nl.rs): resolve the residual-token string as a whole; Multiple
is filtered by the domain hint; None falls back to individual tokens with a
0.7 floor. Returns added targets and notes. -/
def priority4 (o : SkimOracle) (cache : Cache) (domain_hint : Option String)
    (remaining : List String) : List ParsedTarget × List String :=
  let target_string := joinSep " " remaining
  if target_string == "" then ([], [])
  else
    match find_entity o target_string cache with
    | .Single m => (if clearsFloor m then [ParsedTarget.ofMatch m] else [], [])
    | .Multiple ms =>
        let filtered : List (Match CachedEntity) :=
          match domain_hint with
          | some domain => ms.filter (fun m => m.item.domain == domain)
          | none => ms
        match filtered with
        | [m] => (if clearsFloor m then [ParsedTarget.ofMatch m] else [], [])
        | [] => ([], [])
        | _ :: _ :: _ =>
            let sel := ((filtered.take 5).filter
                (fun m => qleB (mkRat 1 2) m.confidence)).map ParsedTarget.ofMatch
            (sel, if !sel.isEmpty then ["Multiple matches found"] else [])
    | .None =>
        (remaining.filterMap (fun token =>
          match find_entity o token cache with
          | .Single m =>
              if qltB (mkRat 7 10) m.confidence then some (ParsedTarget.ofMatch m) else none
          | _ => none), [])

/-- The area fallback (nl.rs): all entities of the area, filtered by the
domain hint, capped at 10. -/
def areaFallback (o : SkimOracle) (cache : Cache) (domain_hint : Option String)
    (area : String) : List ParsedTarget :=
  let entities := find_entities_in_area o area cache
  let filtered : List CachedEntity :=
    match domain_hint with
    | some domain => entities.filter (fun e => e.domain == domain)
    | none => entities
  (filtered.take 10).map (fun e =>
    { entity_id := e.entity_id, friendly_name := e.friendly_name,
      match_type := "area_match", matched_input := area })

/-- The bare-domain fallback of the main parse path (nl.rs lines 538-566):
runs when no targets were resolved and a domain hint exists. At most the
first 10 of the domain's entities are targeted, and only when the domain has
1..=15 entities; above 15 an advisory note is attached instead. Returns the
new targets and notes. -/
def domainFallback (cache : Cache) (domain : String) (notes : List String) :
    List ParsedTarget × List String :=
  let entities := find_entities_in_domain domain cache
  let entity_count := entities.length
  if ¬entities.isEmpty ∧ entity_count ≤ 15 then
    ((entities.take 10).map (fun e =>
        { entity_id := e.entity_id, friendly_name := e.friendly_name,
          match_type := "domain_match", matched_input := domain }),
     if !notes.isEmpty then
       notes ++ ["No specific entity found, targeting all " ++
          toString (min entity_count 10) ++ " entities in domain '" ++ domain ++ "'"]
     else notes)
  else if 15 < entity_count then
    ([], notes ++ ["No specific entity matched. Domain '" ++ domain ++ "' has " ++
        toString entity_count ++ " entities - please be more specific."])
  else ([], notes)

/-! ## nl.rs: the main parse path -/

/-- The body of the main parse path up to (excluding) the shared
confidence/interpretation tail: the pre-finish command record of the exit
taken, paired with the domain hint in force there (`None` at the priority-1
early return, nl.rs line 364). -/
def mainParseRaw (o : SkimOracle) (actions : List ActionMapping) (input : String)
    (tokens : List String) (cache : Cache) : ParsedCommand × Option String :=
  let st := scanTokens actions tokens ⟨none, none, false, []⟩
  let is_volume :=
    match st.action with
    | some a => containsStr a "volume" || a == "volume_set"
    | none => false
  let entity_tokens := st.nonAction.filter
    (fun t => (parse_number t).isNone && (parse_percentage t).isNone)
  let full_entity_search := joinSep " " entity_tokens
  let early : Option (Match CachedEntity) :=
    if full_entity_search == "" then none
    else
      match find_entity o full_entity_search cache with
      | .Single m => if clearsFloor m then some m else none
      | _ => none
  match early with
  | some m =>
      ({ original := input, action := st.action, targets := [ParsedTarget.ofMatch m],
         parameters := extractParams is_volume st.nonAction [],
         confidence := mkRat 0 1, interpretation := "", notes := [], matched_area := none }, none)
  | none =>
      let cls := classifyTokens o cache is_volume st.nonAction ⟨[], none, none, none, []⟩
      let targets3 : List ParsedTarget :=
        match cls.area_hint with
        | some area =>
            if cls.remaining.isEmpty then []
            else
              let remaining_str := joinSep " " cls.remaining
              match firstComboMatch o cache
                  [remaining_str ++ " " ++ area, remaining_str ++ "_" ++ area,
                   remaining_str ++ "." ++ area] with
              | some m => [ParsedTarget.ofMatch m]
              | none => []
        | none => []
      let p4 :=
        if targets3.isEmpty then priority4 o cache cls.domain_hint cls.remaining
        else (targets3, [])
      let domain_hint2 :=
        if cls.domain_hint.isNone &&
            (match st.mapping with | some m => !m.infers_domain | none => false) then
          some "light"
        else cls.domain_hint
      let afterArea : List ParsedTarget :=
        if p4.1.isEmpty then
          match cls.area_hint with
          | some area => areaFallback o cache domain_hint2 area
          | none => []
        else p4.1
      let final :=
        if afterArea.isEmpty ∧ domain_hint2.isSome then
          domainFallback cache (domain_hint2.getD "") p4.2
        else (afterArea, p4.2)
      ({ original := input, action := st.action, targets := final.1,
         parameters := cls.params, confidence := mkRat 0 1, interpretation := "",
         notes := final.2, matched_area := cls.matched_area }, domain_hint2)

/-- The main (non-service-syntax) path of `NLParser::parse` (nl.rs lines
261-575): both source exits run the shared confidence/interpretation tail and
return `Ok(result)`. -/
def mainParse (o : SkimOracle) (actions : List ActionMapping) (input : String)
    (tokens : List String) (cache : Cache) : Except String ParsedCommand :=
  let rd := mainParseRaw o actions input tokens cache
  .ok (finishCommand rd.1 rd.2)

/-! ## nl.rs: the explicit service-call path -/

/-- Rust `str::eq_ignore_ascii_case`. -/
def eqIgnoreAsciiCase (a b : String) : Bool := lowerStr a == lowerStr b

/-- The parameter/entity token split of `parse_service_based` (nl.rs):
percentages first, then numbers, the rest entity-name tokens. -/
def svcClassify : List String → List (String × JValue) × List String →
    List (String × JValue) × List String
| [], acc => acc
| t :: rest, acc =>
    match parse_percentage t with
    | some pct => svcClassify rest (mapInsert acc.1 "brightness_pct" (.jint pct), acc.2)
    | none =>
      match parse_number t with
      | some n => svcClassify rest (mapInsert acc.1 "value" (.jint n), acc.2)
      | none => svcClassify rest (acc.1, acc.2 ++ [t])

/-- `NLParser::parse_service_based` (nl.rs): `call|run <domain> <service>
[targets...] [params...]`, fixed confidence 0.8; its single source exit is
`Ok(result)`. -/
def parse_service_based (o : SkimOracle) (actions : List ActionMapping) (input : String)
    (tokens : List String) (cache : Cache) : Except String ParsedCommand :=
  let domain_token := tokens.getD 1 ""
  let service_token := tokens.getD 2 ""
  let domain :=
    match find_domain domain_token cache with
    | .Single m => m.item
    | _ => domain_token
  let full_service_name := domain ++ "." ++ service_token
  let action :=
    match find_service o full_service_name cache with
    | .Single service_match => service_match.item.service
    | _ =>
      match (cache.services_for_domain domain).find?
          (fun s => eqIgnoreAsciiCase s service_token) with
      | some matching_service => matching_service
      | none =>
        match find_action actions service_token with
        | some a => a
        | none => service_token
  let cls := svcClassify (tokens.drop 3) ([], [])
  let tn : List ParsedTarget × List String :=
    if !cls.2.isEmpty then
      match find_entity o (joinSep " " cls.2) cache with
      | .Single m => ([ParsedTarget.ofMatch m], [])
      | .Multiple ms =>
          let filtered := ms.filter (fun m => m.item.domain == domain)
          match filtered with
          | [m] => ([ParsedTarget.ofMatch m], [])
          | [] => ([], ["No entities found in specified domain"])
          | _ :: _ :: _ => ((filtered.take 5).map ParsedTarget.ofMatch, ["Multiple matches found"])
      | .None =>
          let ts := ((find_entities_in_domain domain cache).take 10).map (fun e =>
            { entity_id := e.entity_id, friendly_name := e.friendly_name,
              match_type := "domain_match", matched_input := domain : ParsedTarget })
          (ts, if ts.isEmpty then ["No entities found"] else [])
    else
      (((find_entities_in_domain domain cache).take 10).map (fun e =>
        { entity_id := e.entity_id, friendly_name := e.friendly_name,
          match_type := "domain_match", matched_input := domain : ParsedTarget }), [])
  .ok { original := input, action := some action, targets := tn.1,
        parameters := cls.1, confidence := mkRat 4 5,
        interpretation := domain ++ "." ++ action ++ " on " ++
          (if tn.1.isEmpty then "all entities"
           else toString tn.1.length ++ " entities"),
        notes := tn.2, matched_area := none }

/-- The `call|run` dispatch condition of `parse` (nl.rs line 257). -/
def serviceGuard (tokens : List String) : Prop :=
  3 ≤ tokens.length ∧ (tokens.getD 0 "" = "call" ∨ tokens.getD 0 "" = "run")

instance (tokens : List String) : Decidable (serviceGuard tokens) := by
  unfold serviceGuard; infer_instance

/-- `NLParser::parse` (nl.rs): trim, tokenize, dispatch. `NLParser::new` fixes
the action table to `action_mappings`. -/
def parse (o : SkimOracle) (input0 : String) (cache : Cache) : Except String ParsedCommand :=
  let input := trimStr input0
  if input = "" then .error "Empty command"
  else
    let tokens := tokenize input
    if tokens = [] then .error "No tokens in command"
    else if serviceGuard tokens then parse_service_based o action_mappings input tokens cache
    else mainParse o action_mappings input tokens cache

/-! ## nl.rs: the service-call builder -/

/-- `struct ServiceTarget` (nl.rs). -/
structure ServiceTarget where
  entity_id : List String
  area_id : Option (List String)
deriving DecidableEq

/-- `struct ServiceCall` (nl.rs); data is the association-list model of the
`serde_json::Map`. -/
structure ServiceCall where
  domain : String
  service : String
  target : ServiceTarget
  data : List (String × JValue)
deriving DecidableEq

/-- `STANDARD_DOMAINS` (nl.rs): the Home Assistant domains with their own
turn_on/turn_off services. -/
def STANDARD_DOMAINS : List String :=
  ["automation", "button", "camera", "climate", "cover", "fan", "humidifier",
   "input_boolean", "light", "lock", "media_player", "remote", "scene", "script",
   "siren", "switch", "vacuum", "water_heater"]

/-- One parameter conversion step of `to_service_call` (nl.rs lines 922-969). -/
def svcParamStep (domain : String) (data : List (String × JValue)) (key : String)
    (value : JValue) : List (String × JValue) :=
  if key == "brightness_pct" then
    match value.as_i64 with
    | some pct =>
        mapInsert data "brightness"
          (.jint (roundHalfAway (qdiv (qmul (qofInt pct) (mkRat 255 1)) (mkRat 100 1))))
    | none => data
  else if key == "value" then
    if domain == "light" then
      match value.as_i64 with
      | some val =>
          if val ≤ 100 then
            mapInsert data "brightness"
              (.jint (roundHalfAway (qdiv (qmul (qofInt val) (mkRat 255 1)) (mkRat 100 1))))
          else mapInsert data "brightness" value
      | none => data
    else if domain == "climate" then mapInsert data "temperature" value
    else if domain == "media_player" then
      match value.as_i64 with
      | some val =>
          mapInsert data "volume_level"
            (.jnum (fclamp (qdiv (qofInt val) (mkRat 100 1)) (mkRat 0 1) (mkRat 1 1)))
      | none => data
    else mapInsert data "value" value
  else if key == "volume_pct" then
    match value.as_i64 with
    | some pct =>
        mapInsert data "volume_level"
          (.jnum (fclamp (qdiv (qofInt pct) (mkRat 100 1)) (mkRat 0 1) (mkRat 1 1)))
    | none => data
  else mapInsert data key value

/-- `ParsedCommand::to_service_call` (nl.rs): fails only on an empty target
list; `split('.').next()` of the first target gives the domain candidate. -/
def to_service_call (cmd : ParsedCommand) : Except String ServiceCall :=
  match cmd.targets with
  | [] => .error "No targets specified"
  | t0 :: _ =>
    let action := cmd.action.getD "turn_on"
    let first_entity := t0.entity_id
    match (splitPred (fun c => c == '.') first_entity).head? with
    | none => .error ("Invalid entity ID: " ++ first_entity)
    | some parsed_domain =>
      let domain :=
        if STANDARD_DOMAINS.contains parsed_domain then parsed_domain else "homeassistant"
      let service_name :=
        match action_mappings.find? (fun m => m.default_service == action) with
        | some m => m.service_for_domain domain
        | none => action
      let entity_ids := cmd.targets.map (fun t => t.entity_id)
      let data := cmd.parameters.foldl (fun d kv => svcParamStep domain d kv.1 kv.2) []
      .ok { domain := domain, service := service_name,
            target := { entity_id := entity_ids, area_id := none }, data := data }

/-- `Except.isOk`, named locally to keep the development self-contained. -/
def exceptIsOk {ε α : Type} : Except ε α → Bool
| .ok _ => true
| .error _ => false

/-! ## Concrete fixtures and cascade vocabulary -/

/-- An oracle under which the external skim matcher never scores (all fuzzy
tiers empty). -/
def oNone : SkimOracle := ⟨fun _ _ => none⟩

/-- An oracle under which the external skim matcher scores every pair 100. -/
def oAll100 : SkimOracle := ⟨fun _ _ => some 100⟩

/-- The empty registry. -/
def emptyCache : Cache := ⟨[], [], []⟩

/-- A bare light entity `light.l<i>` with one search name. -/
def lightEnt (i : Nat) : CachedEntity :=
  { entity_id := "light.l" ++ toString i, domain := "light",
    object_id := "l" ++ toString i, state := "on", friendly_name := none,
    area_id := none, search_names := ["light.l" ++ toString i] }

/-- A registry with 11 lights (between the 10-target cap and the 15-entity
threshold of the domain fallback). -/
def cache11 : Cache := ⟨(List.range 11).map lightEnt, [], []⟩

/-- A registry with one light entity (domain list = ["light"]). -/
def cacheOneLight : Cache := ⟨[lightEnt 0], [], []⟩

/-- A `MatchResult` is decided by a tier's candidate list: a Single drawn
from the tier, or a Multiple that is a permutation (reordering) of it. -/
def decidedBy {T : Type} (r : MatchResult T) (tier : List (Match T)) : Prop :=
  (∃ m, r = .Single m ∧ m ∈ tier) ∨ (∃ l, r = .Multiple l ∧ l.Perm tier)

/-- Modelled from the spec: the Fuzzy tier that `find_domain` would run if it
followed the same four-tier cascade as the other finders — one fuzzy candidate
per domain whose skim score against the lowercased input reaches
MIN_FUZZY_SCORE, with estimated max score `input.len() * 16`. -/
def domainFuzzyPassSpec (o : SkimOracle) (input input_lower : String)
    (domains : List String) : List (Match String) :=
  let max_score : Int := (byteLen input : Int) * 16
  domains.filterMap (fun d =>
    match o.fuzzyMatch d input_lower with
    | some score =>
        if MIN_FUZZY_SCORE ≤ score then some (Match.fuzzy d input d score max_score)
        else none
    | none => none)

/-! ## Helper lemmas -/

theorem qadd_def (a b : ℚ) : qadd a b = a + b := rfl

theorem qmul_def (a b : ℚ) : qmul a b = a * b := rfl

theorem qdiv_def (a b : ℚ) : qdiv a b = a / b := rfl

theorem qneg_def (a : ℚ) : qneg a = -a := rfl

theorem qleB_iff (a b : ℚ) : qleB a b = true ↔ a ≤ b := by
  unfold qleB
  rw [Bool.not_eq_true']
  exact Iff.rfl

theorem qltB_iff (a b : ℚ) : qltB a b = true ↔ a < b := Iff.rfl

theorem qofInt_def (n : Int) : qofInt n = (n : ℚ) := Rat.mkRat_one n

theorem qofNat_def (n : Nat) : qofNat n = (n : ℚ) := by
  unfold qofNat
  rw [Rat.mkRat_one]
  norm_num

theorem mkRat_eq_div (n : Int) (d : Nat) : mkRat n d = (n : ℚ) / (d : ℚ) := by
  rw [Rat.mkRat_eq_divInt, Rat.divInt_eq_div]
  norm_num

theorem fmin_eq (a b : ℚ) : fmin a b = if a ≤ b then a else b := by
  unfold fmin
  by_cases h : a ≤ b
  · rw [if_pos ((qleB_iff a b).mpr h), if_pos h]
  · rw [if_neg (fun hc => h ((qleB_iff a b).mp hc)), if_neg h]

theorem fclamp_eq (x lo hi : ℚ) :
    fclamp x lo hi = if x < lo then lo else if hi < x then hi else x := by
  unfold fclamp
  by_cases h1 : x < lo
  · rw [if_pos ((qltB_iff x lo).mpr h1), if_pos h1]
  · rw [if_neg (fun hc => h1 ((qltB_iff x lo).mp hc)), if_neg h1]
    by_cases h2 : hi < x
    · rw [if_pos ((qltB_iff hi x).mpr h2), if_pos h2]
    · rw [if_neg (fun hc => h2 ((qltB_iff hi x).mp hc)), if_neg h2]

theorem roundHalfAway_eq (q : ℚ) :
    roundHalfAway q = if 0 ≤ q then ⌊q + 1 / 2⌋ else -⌊-q + 1 / 2⌋ := by
  unfold roundHalfAway
  have hb : (mkRat 0 1 : ℚ) = 0 := by rw [mkRat_eq_div]; norm_num
  have hh : (mkRat 1 2 : ℚ) = 1 / 2 := by rw [mkRat_eq_div]; norm_num
  have hfloor : ∀ r : ℚ, Rat.floor r = ⌊r⌋ := fun _ => rfl
  by_cases h : (0 : ℚ) ≤ q
  · rw [if_pos (by rw [hb]; exact (qleB_iff _ q).mpr h), if_pos h, hfloor, qadd_def, hh]
  · rw [if_neg (fun hc => h (hb ▸ (qleB_iff (mkRat 0 1) q).mp hc)), if_neg h, hfloor,
      qadd_def, qneg_def, hh]

theorem convBrightness (p : Int) :
    qdiv (qmul (qofInt p) (mkRat 255 1)) (mkRat 100 1) = (p : ℚ) * 255 / 100 := by
  rw [qdiv_def, qmul_def, qofInt_def]
  rw [show (mkRat 255 1 : ℚ) = 255 from by rw [mkRat_eq_div]; norm_num]
  rw [show (mkRat 100 1 : ℚ) = 100 from by rw [mkRat_eq_div]; norm_num]

theorem splitPredAux_ne_nil (p : Char → Bool) :
    ∀ (l acc : List Char), splitPredAux p l acc ≠ [] := by
  intro l
  induction l with
  | nil => intro acc; simp [splitPredAux]
  | cons c rest ih =>
      intro acc
      unfold splitPredAux
      by_cases h : p c <;> simp [h, ih]

theorem splitPredAux_head (p : Char → Bool) :
    ∀ (l acc : List Char),
      (splitPredAux p l acc).head? =
        some (String.mk (acc.reverse ++ l.takeWhile (fun c => !p c))) := by
  intro l
  induction l with
  | nil => intro acc; simp [splitPredAux]
  | cons c rest ih =>
      intro acc
      unfold splitPredAux
      by_cases h : p c
      · simp [h, List.takeWhile_cons, List.append_nil]
      · simp [h, List.takeWhile_cons, ih, List.append_assoc]

/-- The portion of an entity id before the first dot: what Rust
`entity_id.split('.').next()` yields. -/
def entityIdPrefix (s : String) : String :=
  String.mk (s.data.takeWhile (fun c => !(c == '.')))

theorem splitPred_dot_head (s : String) :
    (splitPred (fun c => c == '.') s).head? = some (entityIdPrefix s) := by
  simp [splitPred, splitPredAux_head, entityIdPrefix]

/-! ## C6: early return of the edit-distance primitive -/

/-- C6 (corrected): the length-difference early return of `levenshtein` only
applies when both strings are nonempty — the empty-string shortcuts run
first. With both nonempty and lengths apart by more than MAX_EDIT_DISTANCE,
the result is MAX_EDIT_DISTANCE + 1, without touching the DP table. -/
theorem C6_levenshtein_length_gap (a b : String)
    (ha : a.data ≠ []) (hb : b.data ≠ [])
    (hgap : MAX_EDIT_DISTANCE < max a.data.length b.data.length -
      min a.data.length b.data.length) :
    levenshtein a b = MAX_EDIT_DISTANCE + 1 := by
  have ha' : a.data.length ≠ 0 := fun h => ha (List.length_eq_zero.mp h)
  have hb' : b.data.length ≠ 0 := fun h => hb (List.length_eq_zero.mp h)
  unfold levenshtein
  dsimp only
  rw [if_neg ha', if_neg hb', if_pos hgap]

/-- C6 witness: two concrete nonempty strings with a length gap of 4. -/
theorem C6_levenshtein_length_gap_witness :
    levenshtein "a" "bcdef" = MAX_EDIT_DISTANCE + 1 :=
  C6_levenshtein_length_gap "a" "bcdef" (by decide) (by decide) (by decide)

/-- C6 counterexample: for `a = ""`, `b = "abcd"` the lengths differ by 4 > 2
yet `levenshtein` returns 4, not MAX_EDIT_DISTANCE + 1 = 3 — the empty-string
shortcut fires before the length-difference check. -/
theorem C6_counterexample :
    MAX_EDIT_DISTANCE < max "".data.length "abcd".data.length -
        min "".data.length "abcd".data.length ∧
      levenshtein "" "abcd" = 4 ∧ levenshtein "" "abcd" ≠ MAX_EDIT_DISTANCE + 1 := by
  refine ⟨by decide, by decide, by decide⟩

/-! ## C8: confidence assignment of the Match constructors -/

/-- C8 (confirmed): each `Match` constructor fixes the confidence by kind —
Exact 1.0, Prefix 0.9, Typo distance 1 → 0.8, distance 2 → 0.6, other
distances → 0.4, Fuzzy → min(score/max, 0.85) for positive estimated max and
0.5 otherwise — and, for a non-negative score, every constructor's confidence
lies in [0, 1]. -/
theorem C8_match_confidence (T : Type) (x : T) (inp mo : String) (d : Nat)
    (score maxs : Int) :
    (Match.exact x inp mo).confidence = 1.0 ∧
    (Match.prefixM x inp mo).confidence = 0.9 ∧
    (Match.typo x inp mo 1).confidence = 0.8 ∧
    (Match.typo x inp mo 2).confidence = 0.6 ∧
    (d ≠ 1 → d ≠ 2 → (Match.typo x inp mo d).confidence = 0.4) ∧
    (Match.fuzzy x inp mo score maxs).confidence =
      (if 0 < maxs then fmin ((score : ℚ) / (maxs : ℚ)) 0.85 else 0.5) ∧
    (0 ≤ (Match.exact x inp mo).confidence ∧ (Match.exact x inp mo).confidence ≤ 1) ∧
    (0 ≤ (Match.prefixM x inp mo).confidence ∧ (Match.prefixM x inp mo).confidence ≤ 1) ∧
    (0 ≤ (Match.typo x inp mo d).confidence ∧ (Match.typo x inp mo d).confidence ≤ 1) ∧
    (0 ≤ score →
      0 ≤ (Match.fuzzy x inp mo score maxs).confidence ∧
        (Match.fuzzy x inp mo score maxs).confidence ≤ 1) := by
  have hmk : ∀ (a : Int) (b : Nat), (mkRat a b : ℚ) = (a : ℚ) / (b : ℚ) := mkRat_eq_div
  have hex : (Match.exact x inp mo).confidence = (mkRat 1 1 : ℚ) := rfl
  have hpr : (Match.prefixM x inp mo).confidence = (mkRat 9 10 : ℚ) := rfl
  have ht1 : (Match.typo x inp mo 1).confidence = (mkRat 4 5 : ℚ) := rfl
  have ht2 : (Match.typo x inp mo 2).confidence = (mkRat 3 5 : ℚ) := rfl
  have hcrat : ∀ dd : Nat, (Match.typo x inp mo dd).confidence = (mkRat 4 5 : ℚ) ∨
      (Match.typo x inp mo dd).confidence = (mkRat 3 5 : ℚ) ∨
      (Match.typo x inp mo dd).confidence = (mkRat 2 5 : ℚ) := by
    intro dd
    match dd with
    | 1 => exact Or.inl rfl
    | 2 => exact Or.inr (Or.inl rfl)
    | 0 => exact Or.inr (Or.inr rfl)
    | (n + 3) => exact Or.inr (Or.inr rfl)
  have hfz : (Match.fuzzy x inp mo score maxs).confidence =
      (if 0 < maxs then fmin ((score : ℚ) / (maxs : ℚ)) 0.85 else 0.5) := by
    unfold Match.fuzzy
    dsimp only
    by_cases hm : 0 < maxs
    · rw [if_pos hm, if_pos hm, qdiv_def, qofInt_def, qofInt_def,
        show (mkRat 85 100 : ℚ) = 0.85 from by rw [hmk]; norm_num]
    · rw [if_neg hm, if_neg hm, show (mkRat 1 2 : ℚ) = 0.5 from by rw [hmk]; norm_num]
  refine ⟨by rw [hex, hmk]; norm_num, by rw [hpr, hmk]; norm_num,
    by rw [ht1, hmk]; norm_num, by rw [ht2, hmk]; norm_num, ?_, hfz, ?_, ?_, ?_, ?_⟩
  · intro h1 h2
    have : (Match.typo x inp mo d).confidence = (mkRat 2 5 : ℚ) := by
      match d, h1, h2 with
      | 0, _, _ => rfl
      | (n + 3), _, _ => rfl
    rw [this, hmk]
    norm_num
  · rw [hex, hmk]
    constructor <;> norm_num
  · rw [hpr, hmk]
    constructor <;> norm_num
  · rcases hcrat d with h | h | h <;> rw [h, hmk] <;> constructor <;> norm_num
  · intro hs
    rw [hfz]
    by_cases hm : 0 < maxs
    · have hsq : (0 : ℚ) ≤ (score : ℚ) := by exact_mod_cast hs
      have hmq : (0 : ℚ) < (maxs : ℚ) := by exact_mod_cast hm
      have hdiv : (0 : ℚ) ≤ (score : ℚ) / (maxs : ℚ) := div_nonneg hsq (le_of_lt hmq)
      rw [if_pos hm, fmin_eq]
      by_cases hle : (score : ℚ) / (maxs : ℚ) ≤ 0.85
      · rw [if_pos hle]
        exact ⟨hdiv, le_trans hle (by norm_num)⟩
      · rw [if_neg hle]
        exact ⟨by norm_num, by norm_num⟩
    · rw [if_neg hm]
      exact ⟨by norm_num, by norm_num⟩

/-! ## C2: to_service_call fails exactly on an empty target list -/

/-- C2 (confirmed): `to_service_call` returns a `ServiceCall` iff the parsed
command has at least one target; there is no other failure path — in
particular `split('.').next()` always yields a (possibly dot-free) first
component, so the "Invalid entity ID" branch is unreachable. -/
theorem C2_to_service_call_ok_iff (cmd : ParsedCommand) :
    exceptIsOk (to_service_call cmd) = true ↔ cmd.targets ≠ [] := by
  cases h : cmd.targets with
  | nil => simp [to_service_call, h, exceptIsOk]
  | cons t0 rest =>
      unfold to_service_call
      rw [h]
      dsimp only
      rw [splitPred_dot_head t0.entity_id]
      simp [exceptIsOk]

/-! ## C4: domain rewrite and verbatim targets of to_service_call -/

/-- C4 (confirmed): on a command with at least one target, the call's domain
is the first target's entity-id prefix when that prefix is a standard domain
and the "homeassistant" fallback otherwise; all target entity ids are copied
verbatim; the call's area_id is never set. -/
theorem C4_service_call_domain_and_targets (cmd : ParsedCommand) (t0 : ParsedTarget)
    (rest : List ParsedTarget) (h : cmd.targets = t0 :: rest) :
    (to_service_call cmd).map (fun c => c.domain) =
      .ok (if STANDARD_DOMAINS.contains (entityIdPrefix t0.entity_id) then
            entityIdPrefix t0.entity_id
          else "homeassistant") ∧
    (to_service_call cmd).map (fun c => c.target.entity_id) =
      .ok (cmd.targets.map (fun t => t.entity_id)) ∧
    (to_service_call cmd).map (fun c => c.target.area_id) = .ok none := by
  unfold to_service_call
  rw [h]
  dsimp only
  rw [splitPred_dot_head t0.entity_id]
  refine ⟨?_, ?_, ?_⟩ <;> simp [h, Except.map]

/-- C4 witness: a one-target command on the non-standard domain prefix
"spots" (rewritten to "homeassistant") with the literal entity id preserved. -/
theorem C4_witness :
    (to_service_call
        { original := "on spots.wohnzimmer", action := some "turn_on",
          targets := [{ entity_id := "spots.wohnzimmer", friendly_name := none,
                        match_type := "Exact", matched_input := "spots.wohnzimmer" }],
          parameters := [], confidence := 1.0, interpretation := "",
          notes := [], matched_area := none }).map (fun c => c.domain) =
      .ok "homeassistant" ∧
    (to_service_call
        { original := "on spots.wohnzimmer", action := some "turn_on",
          targets := [{ entity_id := "spots.wohnzimmer", friendly_name := none,
                        match_type := "Exact", matched_input := "spots.wohnzimmer" }],
          parameters := [], confidence := 1.0, interpretation := "",
          notes := [], matched_area := none }).map (fun c => c.target.entity_id) =
      .ok ["spots.wohnzimmer"] := by
  have h := C4_service_call_domain_and_targets
    { original := "on spots.wohnzimmer", action := some "turn_on",
      targets := [{ entity_id := "spots.wohnzimmer", friendly_name := none,
                    match_type := "Exact", matched_input := "spots.wohnzimmer" }],
      parameters := [], confidence := 1.0, interpretation := "",
      notes := [], matched_area := none }
    { entity_id := "spots.wohnzimmer", friendly_name := none,
      match_type := "Exact", matched_input := "spots.wohnzimmer" } [] rfl
  refine ⟨?_, ?_⟩
  · rw [h.1]
    rfl
  · rw [h.2.1]
    rfl

/-! ## C10: a missing action silently defaults to turn_on -/

/-- C10 (confirmed): with at least one target and no action,
`to_service_call` succeeds and selects service "turn_on" whatever the
target's domain: the unwrap default is "turn_on", whose first table entry has
no domain overrides. -/
theorem C10_missing_action_defaults_turn_on (cmd : ParsedCommand)
    (ha : cmd.action = none) (ht : cmd.targets ≠ []) :
    exceptIsOk (to_service_call cmd) = true ∧
    (to_service_call cmd).map (fun c => c.service) = .ok "turn_on" := by
  cases h : cmd.targets with
  | nil => exact absurd h ht
  | cons t0 rest =>
      unfold to_service_call
      rw [h, ha]
      dsimp only
      rw [splitPred_dot_head t0.entity_id]
      refine ⟨rfl, ?_⟩
      simp [action_mappings, ActionMapping.service_for_domain, Except.map]

/-- C10 witness: a concrete action-less command on a dot-free entity id. -/
theorem C10_witness :
    exceptIsOk (to_service_call
        { original := "x", action := none,
          targets := [{ entity_id := "weird", friendly_name := none,
                        match_type := "Exact", matched_input := "x" }],
          parameters := [], confidence := 0.5, interpretation := "",
          notes := [], matched_area := none }) = true ∧
    (to_service_call
        { original := "x", action := none,
          targets := [{ entity_id := "weird", friendly_name := none,
                        match_type := "Exact", matched_input := "x" }],
          parameters := [], confidence := 0.5, interpretation := "",
          notes := [], matched_area := none }).map (fun c => c.service) =
      .ok "turn_on" :=
  C10_missing_action_defaults_turn_on
    { original := "x", action := none,
      targets := [{ entity_id := "weird", friendly_name := none,
                    match_type := "Exact", matched_input := "x" }],
      parameters := [], confidence := 0.5, interpretation := "",
      notes := [], matched_area := none } rfl (by decide)

/-! ## C3: when parse fails -/

theorem parse_service_based_isOk (o : SkimOracle) (actions : List ActionMapping)
    (input : String) (tokens : List String) (cache : Cache) :
    exceptIsOk (parse_service_based o actions input tokens cache) = true := rfl

theorem mainParse_isOk (o : SkimOracle) (actions : List ActionMapping)
    (input : String) (tokens : List String) (cache : Cache) :
    exceptIsOk (mainParse o actions input tokens cache) = true := rfl

/-- C3 (corrected): `parse` returns an error exactly when the trimmed input
is empty or tokenization yields no tokens — a raw word is dropped either
because it trims to the empty string (punctuation-only) or because it is a
stop word. Every other input produces a `ParsedCommand` (both the service
path and the main path always return Ok). -/
theorem C3_parse_error_iff (o : SkimOracle) (input : String) (cache : Cache) :
    exceptIsOk (parse o input cache) = false ↔
      (trimStr input = "" ∨ tokenize (trimStr input) = []) := by
  unfold parse
  by_cases h1 : trimStr input = ""
  · rw [if_pos h1]
    simp [h1, exceptIsOk]
  · rw [if_neg h1]
    by_cases h2 : tokenize (trimStr input) = []
    · rw [if_pos h2]
      simp [h1, h2, exceptIsOk]
    · rw [if_neg h2]
      by_cases h3 : serviceGuard (tokenize (trimStr input))
      · rw [if_pos h3, parse_service_based_isOk]
        simp [h1, h2]
      · rw [if_neg h3, mainParse_isOk]
        simp [h1, h2]

/-- C3 counterexample: the punctuation-only input `"!!!"` makes `parse`
fail, although the input is not empty and its sole whitespace-separated word
is not a stop word — the word is dropped because it trims to the empty
string, a case the claim does not cover. -/
theorem C3_counterexample :
    exceptIsOk (parse oNone "!!!" emptyCache) = false ∧
    trimStr "!!!" ≠ "" ∧ is_stop_word "!!!" = false := by
  refine ⟨by decide, by decide, by decide⟩

/-! ## C9: the confidence formula of the main parse path -/

theorem finishCommand_fields (r : ParsedCommand) (dh : Option String) :
    (finishCommand r dh).action = r.action ∧
    (finishCommand r dh).targets = r.targets ∧
    (finishCommand r dh).parameters = r.parameters ∧
    (finishCommand r dh).notes = r.notes ∧
    (finishCommand r dh).confidence = calculate_confidence r :=
  ⟨rfl, rfl, rfl, rfl, rfl⟩

/-- `calculate_confidence` in the spec's arithmetic: the target share is
0.4/(target count) when at least one target exists and 0 otherwise. -/
theorem calculate_confidence_formula (r : ParsedCommand) :
    calculate_confidence r =
      (if r.action.isSome then (0.3 : ℚ) else 0) +
      (if r.targets.isEmpty then 0 else 0.4 / (r.targets.length : ℚ)) +
      (if r.parameters.isEmpty then 0 else 0.2) +
      (if r.notes.isEmpty then 0.1 else 0) := by
  unfold calculate_confidence
  rw [qadd_def, qadd_def, qadd_def]
  have h310 : (mkRat 3 10 : ℚ) = 0.3 := by rw [mkRat_eq_div]; norm_num
  have h01 : (mkRat 0 1 : ℚ) = 0 := by rw [mkRat_eq_div]; norm_num
  have h25 : (mkRat 2 5 : ℚ) = 0.4 := by rw [mkRat_eq_div]; norm_num
  have h11 : (mkRat 1 1 : ℚ) = 1 := by rw [mkRat_eq_div]; norm_num
  have h15 : (mkRat 1 5 : ℚ) = 0.2 := by rw [mkRat_eq_div]; norm_num
  have h110 : (mkRat 1 10 : ℚ) = 0.1 := by rw [mkRat_eq_div]; norm_num
  congr 1
  · congr 1
    · congr 1
      · by_cases ha : r.action.isSome <;> simp [ha, h310, h01]
      · by_cases ht : r.targets.isEmpty
        · simp [ht, h01]
        · have hne : r.targets ≠ [] := by
            intro hc
            rw [hc] at ht
            simp at ht
          have hlen : 1 ≤ r.targets.length := List.length_pos.mpr hne
          have hlenq : (1 : ℚ) ≤ (r.targets.length : ℚ) := by exact_mod_cast hlen
          have hlenpos : (0 : ℚ) < (r.targets.length : ℚ) := by linarith
          rw [if_pos (by simp [ht]), if_neg (by simp [ht])]
          rw [qmul_def, qdiv_def, qofNat_def, h25, h11]
          rw [fmin_eq, if_pos (by rw [div_le_one hlenpos]; exact hlenq)]
          rw [mul_one_div]
    · by_cases hp : r.parameters.isEmpty <;> simp [hp, h15, h01]
  · by_cases hn : r.notes.isEmpty <;> simp [hn, h110, h01]

set_option maxHeartbeats 1600000 in
/-- C9 (corrected): every `ParsedCommand` the main parse path returns has
confidence 0.3 (action found) + 0.4 ÷ target count **when at least one target
exists, 0 otherwise** + 0.2 (parameters found) + 0.1 (no notes); the source
adds no target share at all for an empty target list, rather than
0.4/max(1, 0) = 0.4. -/
theorem C9_confidence_formula (o : SkimOracle) (input : String) (cache : Cache)
    (hns : ¬ serviceGuard (tokenize (trimStr input))) :
    (parse o input cache).map (fun r => r.confidence) =
      (parse o input cache).map (fun r =>
        (if r.action.isSome then (0.3 : ℚ) else 0) +
        (if r.targets.isEmpty then 0 else 0.4 / (r.targets.length : ℚ)) +
        (if r.parameters.isEmpty then 0 else 0.2) +
        (if r.notes.isEmpty then 0.1 else 0)) := by
  unfold parse
  by_cases h1 : trimStr input = ""
  · rw [if_pos h1]
    rfl
  · rw [if_neg h1]
    by_cases h2 : tokenize (trimStr input) = []
    · rw [if_pos h2]
      rfl
    · rw [if_neg h2, if_neg hns]
      show (mainParse o action_mappings (trimStr input) (tokenize (trimStr input)) cache).map _
        = (mainParse o action_mappings (trimStr input) (tokenize (trimStr input)) cache).map _
      unfold mainParse
      generalize mainParseRaw o action_mappings (trimStr input) (tokenize (trimStr input)) cache
        = rd
      rcases rd with ⟨r, dh⟩
      simp only [Except.map]
      congr 1
      rw [(finishCommand_fields r dh).2.2.2.2, calculate_confidence_formula,
        (finishCommand_fields r dh).1, (finishCommand_fields r dh).2.1,
        (finishCommand_fields r dh).2.2.1, (finishCommand_fields r dh).2.2.2.1]

/-- C9 witness: a concrete main-path parse; the hypothesis (not the explicit
service syntax) is discharged at it. -/
theorem C9_confidence_formula_witness :
    (parse oNone "on zzz" emptyCache).map (fun r => r.confidence) =
      (parse oNone "on zzz" emptyCache).map (fun r =>
        (if r.action.isSome then (0.3 : ℚ) else 0) +
        (if r.targets.isEmpty then 0 else 0.4 / (r.targets.length : ℚ)) +
        (if r.parameters.isEmpty then 0 else 0.2) +
        (if r.notes.isEmpty then 0.1 else 0)) :=
  C9_confidence_formula oNone "on zzz" emptyCache (by decide)

set_option maxHeartbeats 2000000 in
/-- C9 counterexample: `parse oNone "on zzz"` over the empty registry finds
the action but no target, no parameter and no note, and its confidence is
0.3 + 0.1 = 0.4 = 2/5 — while the claimed formula 0.3 + 0.4/max(1, 0) + 0.1
gives 0.8. -/
theorem C9_counterexample :
    (parse oNone "on zzz" emptyCache).toOption.map
        (fun r => (r.confidence, r.action.isSome, r.targets.length,
          r.parameters.isEmpty, r.notes.isEmpty)) =
      some (mkRat 2 5, true, 0, true, true) ∧
    (mkRat 2 5 : ℚ) = 0.4 ∧
    ((0.3 : ℚ) + 0.4 / ((max 1 0 : Nat) : ℚ) + 0.1) = 0.8 ∧
    (0.4 : ℚ) ≠ 0.8 := by
  refine ⟨by decide, by rw [mkRat_eq_div]; norm_num, by norm_num, by norm_num⟩

/-! ## C1: the bare-domain fallback -/

/-- C1 (corrected): when the main parse path reaches the bare-domain fallback
with no targets, a domain with 1..=15 entities yields the **first at most 10**
entities of the domain as targets (all of them only when the domain has at
most 10); a domain with more than 15 entities yields no targets and the
advisory note asking the user to be more specific. -/
theorem C1_domain_fallback (cache : Cache) (domain : String) (notes : List String) :
    ((find_entities_in_domain domain cache) ≠ [] →
      (find_entities_in_domain domain cache).length ≤ 15 →
      (domainFallback cache domain notes).1 =
        ((find_entities_in_domain domain cache).take 10).map (fun e =>
          { entity_id := e.entity_id, friendly_name := e.friendly_name,
            match_type := "domain_match", matched_input := domain })) ∧
    (15 < (find_entities_in_domain domain cache).length →
      (domainFallback cache domain notes).1 = [] ∧
      (domainFallback cache domain notes).2 = notes ++
        ["No specific entity matched. Domain '" ++ domain ++ "' has " ++
          toString (find_entities_in_domain domain cache).length ++
          " entities - please be more specific."]) := by
  constructor
  · intro h1 h2
    unfold domainFallback
    rw [if_pos ⟨by simpa [List.isEmpty_iff] using h1, h2⟩]
  · intro h3
    unfold domainFallback
    rw [if_neg (by intro hc; exact absurd h3 (not_lt.mpr hc.2)), if_pos h3]
    exact ⟨rfl, rfl⟩

/-- C1 witness: over the 11-light registry the fallback targets the first 10
entities; the hypotheses (nonempty, at most 15) are discharged concretely. -/
theorem C1_domain_fallback_witness :
    (domainFallback cache11 "light" []).1 =
      (((find_entities_in_domain "light" cache11)).take 10).map (fun e =>
        { entity_id := e.entity_id, friendly_name := e.friendly_name,
          match_type := "domain_match", matched_input := "light" }) :=
  (C1_domain_fallback cache11 "light" []).1 (by decide) (by decide)

set_option maxHeartbeats 4000000 in
/-- C1 counterexample: parsing "on lights" against a registry whose light
domain has 11 entities (at most 15, so the claim says all 11 are targeted)
resolves only the first 10 entities and attaches no note. -/
theorem C1_counterexample :
    (find_entities_in_domain "light" cache11).length = 11 ∧
    (parse oNone "on lights" cache11).toOption.map
        (fun r => (r.targets.map (fun t => t.entity_id), r.targets.map (fun t => t.match_type),
          r.notes)) =
      some (["light.l0", "light.l1", "light.l2", "light.l3", "light.l4", "light.l5",
             "light.l6", "light.l7", "light.l8", "light.l9"],
            ["domain_match", "domain_match", "domain_match", "domain_match", "domain_match",
             "domain_match", "domain_match", "domain_match", "domain_match", "domain_match"],
            []) := by
  refine ⟨by decide, by decide⟩

/-! ## C5: brightness percentage conversion -/

theorem find?_cons_true (p : String × JValue → Bool) (kv : String × JValue)
    (l : List (String × JValue)) (h : p kv = true) : (kv :: l).find? p = some kv :=
  List.find?_cons_of_pos l h

theorem find?_cons_false (p : String × JValue → Bool) (kv : String × JValue)
    (l : List (String × JValue)) (h : p kv = false) : (kv :: l).find? p = l.find? p :=
  List.find?_cons_of_neg l (by simp [h])

theorem find?_map_subst (k : String) (v : JValue) :
    ∀ m : List (String × JValue), m.any (fun kv => kv.1 == k) = true →
      (m.map (fun kv => if kv.1 == k then (k, v) else kv)).find? (fun kv => kv.1 == k) =
        some (k, v) := by
  intro m
  induction m with
  | nil => intro h; simp at h
  | cons kv rest ih =>
      intro h
      by_cases hk : kv.1 = k
      · rw [List.map_cons, if_pos (by simp [hk] : (kv.1 == k) = true)]
        rw [find?_cons_true _ (k, v) _ (by simp)]
      · rw [List.map_cons, if_neg (by simp [hk])]
        rw [find?_cons_false _ kv _ (by simp [hk])]
        apply ih
        simpa [List.any_cons, hk] using h

theorem find?_append_not_any (k : String) (v : JValue) :
    ∀ m : List (String × JValue), m.any (fun kv => kv.1 == k) = false →
      (m ++ [(k, v)]).find? (fun kv => kv.1 == k) = some (k, v) := by
  intro m
  induction m with
  | nil =>
      intro _
      rw [List.nil_append, find?_cons_true _ (k, v) _ (by simp)]
  | cons kv rest ih =>
      intro h
      have hhead : (kv.1 == k) = false := by
        by_cases hk : kv.1 = k
        · exfalso; rw [List.any_cons] at h; simp [hk] at h
        · simp [hk]
      rw [List.cons_append, find?_cons_false _ kv _ hhead]
      apply ih
      rw [List.any_cons] at h
      simpa [hhead] using h

theorem find?_map_subst_ne (k k' : String) (v : JValue) (h : k' ≠ k) :
    ∀ m : List (String × JValue),
      (m.map (fun kv => if kv.1 == k then (k, v) else kv)).find? (fun kv => kv.1 == k') =
        m.find? (fun kv => kv.1 == k') := by
  intro m
  induction m with
  | nil => rfl
  | cons kv rest ih =>
      by_cases hk : kv.1 = k
      · rw [List.map_cons, if_pos (by simp [hk] : (kv.1 == k) = true)]
        rw [find?_cons_false _ (k, v) _ (by simp [Ne.symm h])]
        rw [find?_cons_false _ kv _ (by simp [hk, Ne.symm h])]
        exact ih
      · rw [List.map_cons, if_neg (by simp [hk])]
        by_cases hc : kv.1 = k'
        · rw [find?_cons_true _ kv _ (by simp [hc]),
            find?_cons_true _ kv _ (by simp [hc])]
        · rw [find?_cons_false _ kv _ (by simp [hc]),
            find?_cons_false _ kv _ (by simp [hc])]
          exact ih

theorem find?_append_ne (k k' : String) (v : JValue) (h : k' ≠ k) :
    ∀ m : List (String × JValue),
      (m ++ [(k, v)]).find? (fun kv => kv.1 == k') = m.find? (fun kv => kv.1 == k') := by
  intro m
  induction m with
  | nil =>
      rw [List.nil_append, find?_cons_false _ (k, v) _ (by simp [Ne.symm h])]
  | cons kv rest ih =>
      by_cases hc : kv.1 = k'
      · rw [List.cons_append, find?_cons_true _ kv _ (by simp [hc]),
          find?_cons_true _ kv _ (by simp [hc])]
      · rw [List.cons_append, find?_cons_false _ kv _ (by simp [hc]),
          find?_cons_false _ kv _ (by simp [hc])]
        exact ih

theorem mapLookup_mapInsert_self (m : List (String × JValue)) (k : String) (v : JValue) :
    mapLookup (mapInsert m k v) k = some v := by
  unfold mapInsert mapLookup
  by_cases h : m.any (fun kv => kv.1 == k) = true
  · rw [if_pos h, find?_map_subst k v m h]
    rfl
  · rw [if_neg h, find?_append_not_any k v m (by
      simpa only [Bool.not_eq_true] using h)]
    rfl

theorem mapLookup_mapInsert_ne (m : List (String × JValue)) (k k' : String) (v : JValue)
    (h : k' ≠ k) : mapLookup (mapInsert m k v) k' = mapLookup m k' := by
  unfold mapInsert mapLookup
  by_cases ha : m.any (fun kv => kv.1 == k) = true
  · rw [if_pos ha, find?_map_subst_ne k k' v h m]
  · rw [if_neg ha, find?_append_ne k k' v h m]

/-- Any parameter whose key is none of "brightness_pct", "value",
"brightness" leaves the "brightness" payload entry unchanged. -/
theorem svcParamStep_preserves_brightness (domain : String) (data : List (String × JValue))
    (key : String) (value : JValue)
    (h1 : key ≠ "brightness_pct") (h2 : key ≠ "value") (h3 : key ≠ "brightness") :
    mapLookup (svcParamStep domain data key value) "brightness" =
      mapLookup data "brightness" := by
  unfold svcParamStep
  rw [if_neg (by simp [h1]), if_neg (by simp [h2])]
  by_cases hv : key = "volume_pct"
  · rw [if_pos (by simp [hv])]
    cases value.as_i64 with
    | none => rfl
    | some pct => exact mapLookup_mapInsert_ne data "volume_level" "brightness" _ (by decide)
  · rw [if_neg (by simp [hv])]
    exact mapLookup_mapInsert_ne data key "brightness" value (Ne.symm h3)

theorem fold_preserves_brightness (domain : String) :
    ∀ (params : List (String × JValue)) (data : List (String × JValue)),
      (∀ kv ∈ params, kv.1 ≠ "brightness_pct" ∧ kv.1 ≠ "value" ∧ kv.1 ≠ "brightness") →
      mapLookup (params.foldl (fun d kv => svcParamStep domain d kv.1 kv.2) data) "brightness" =
        mapLookup data "brightness" := by
  intro params
  induction params with
  | nil => intro data _; rfl
  | cons kv rest ih =>
      intro data hall
      have hkv := hall kv (List.mem_cons_self kv rest)
      have hrest : ∀ kv ∈ rest, kv.1 ≠ "brightness_pct" ∧ kv.1 ≠ "value" ∧ kv.1 ≠ "brightness" :=
        fun x hx => hall x (List.mem_cons_of_mem kv hx)
      rw [List.foldl_cons, ih _ hrest,
        svcParamStep_preserves_brightness domain data kv.1 kv.2 hkv.1 hkv.2.1 hkv.2.2]

/-- The full parameter fold writes `brightness = round(p * 255 / 100)` when
a `brightness_pct = p` entry is present, the keys are distinct (the HashMap
invariant) and no competing "value"/"brightness" key exists. -/
theorem fold_brightness (domain : String) (p : Int) :
    ∀ (params : List (String × JValue)) (data : List (String × JValue)),
      (params.map Prod.fst).Nodup →
      ("brightness_pct", JValue.jint p) ∈ params →
      (∀ kv ∈ params, kv.1 ≠ "value" ∧ kv.1 ≠ "brightness") →
      mapLookup (params.foldl (fun d kv => svcParamStep domain d kv.1 kv.2) data) "brightness" =
        some (.jint (roundHalfAway ((p : ℚ) * 255 / 100))) := by
  intro params
  induction params with
  | nil => intro data _ hmem _; simp at hmem
  | cons kv rest ih =>
      intro data hnd hmem hexcl
      have hndcons := List.nodup_cons.mp (by rw [List.map_cons] at hnd; exact hnd)
      have hndtail : (rest.map Prod.fst).Nodup := hndcons.2
      rcases List.mem_cons.mp hmem with heq | hmemrest
      · subst heq
        rw [List.foldl_cons]
        have hstep : svcParamStep domain data "brightness_pct" (JValue.jint p) =
            mapInsert data "brightness" (.jint (roundHalfAway ((p : ℚ) * 255 / 100))) := by
          rw [show svcParamStep domain data "brightness_pct" (JValue.jint p) =
              mapInsert data "brightness"
                (.jint (roundHalfAway (qdiv (qmul (qofInt p) (mkRat 255 1)) (mkRat 100 1))))
              from rfl, convBrightness]
        rw [hstep]
        have hnotin : "brightness_pct" ∉ rest.map Prod.fst := hndcons.1
        have hrest : ∀ kv ∈ rest,
            kv.1 ≠ "brightness_pct" ∧ kv.1 ≠ "value" ∧ kv.1 ≠ "brightness" := by
          intro x hx
          refine ⟨?_, (hexcl x (List.mem_cons_of_mem _ hx)).1,
            (hexcl x (List.mem_cons_of_mem _ hx)).2⟩
          intro hx1
          exact hnotin (hx1 ▸ List.mem_map_of_mem Prod.fst hx)
        rw [fold_preserves_brightness domain rest _ hrest]
        exact mapLookup_mapInsert_self data "brightness" _
      · rw [List.foldl_cons]
        exact ih _ hndtail hmemrest
          (fun x hx => hexcl x (List.mem_cons_of_mem kv hx))

/-- C5 (confirmed): for a command with at least one target carrying a
`brightness_pct` parameter p with 0 ≤ p ≤ 100 (and no competing
"value"/"brightness" parameter — the HashMap gives no iteration-order
guarantee between conflicting writers), the call's payload holds
`brightness = round(p × 255 / 100)`, an integer in 0..=255. -/
theorem C5_brightness_conversion (cmd : ParsedCommand) (p : Int)
    (ht : cmd.targets ≠ [])
    (hnd : (cmd.parameters.map Prod.fst).Nodup)
    (hmem : ("brightness_pct", JValue.jint p) ∈ cmd.parameters)
    (hexcl : ∀ kv ∈ cmd.parameters, kv.1 ≠ "value" ∧ kv.1 ≠ "brightness")
    (hp0 : 0 ≤ p) (hp100 : p ≤ 100) :
    (to_service_call cmd).map (fun c => mapLookup c.data "brightness") =
      .ok (some (.jint (roundHalfAway ((p : ℚ) * 255 / 100)))) ∧
    0 ≤ roundHalfAway ((p : ℚ) * 255 / 100) ∧
    roundHalfAway ((p : ℚ) * 255 / 100) ≤ 255 := by
  have hq0 : (0 : ℚ) ≤ (p : ℚ) := by exact_mod_cast hp0
  have hq100 : (p : ℚ) ≤ 100 := by exact_mod_cast hp100
  have hqval : (0 : ℚ) ≤ (p : ℚ) * 255 / 100 := by positivity
  have hround : roundHalfAway ((p : ℚ) * 255 / 100) = ⌊(p : ℚ) * 255 / 100 + 1 / 2⌋ := by
    rw [roundHalfAway_eq, if_pos hqval]
  refine ⟨?_, ?_, ?_⟩
  · cases h : cmd.targets with
    | nil => exact absurd h ht
    | cons t0 rest =>
        unfold to_service_call
        rw [h]
        dsimp only
        rw [splitPred_dot_head t0.entity_id]
        simp only [Except.map]
        rw [fold_brightness _ p cmd.parameters [] hnd hmem hexcl]
  · rw [hround]
    have : (0 : ℚ) ≤ (p : ℚ) * 255 / 100 + 1 / 2 := by linarith
    exact Int.floor_nonneg.mpr this
  · rw [hround]
    have hle : (p : ℚ) * 255 / 100 + 1 / 2 ≤ 511 / 2 := by
      have : (p : ℚ) * 255 / 100 ≤ 255 := by
        rw [div_le_iff₀ (by norm_num : (0 : ℚ) < 100)]
        linarith
      linarith
    calc ⌊(p : ℚ) * 255 / 100 + 1 / 2⌋ ≤ ⌊(511 : ℚ) / 2⌋ := Int.floor_le_floor hle
      _ = 255 := by norm_num [Int.floor_eq_iff]

/-- C5 witness: `brightness_pct = 50` yields `brightness = 128`. -/
theorem C5_witness :
    (to_service_call
        { original := "on kitchen 50%", action := some "turn_on",
          targets := [{ entity_id := "light.kitchen", friendly_name := none,
                        match_type := "Exact", matched_input := "kitchen" }],
          parameters := [("brightness_pct", JValue.jint 50)], confidence := 1.0,
          interpretation := "", notes := [], matched_area := none }).map
      (fun c => mapLookup c.data "brightness") = .ok (some (.jint 128)) := by
  have h := C5_brightness_conversion
    { original := "on kitchen 50%", action := some "turn_on",
      targets := [{ entity_id := "light.kitchen", friendly_name := none,
                    match_type := "Exact", matched_input := "kitchen" }],
      parameters := [("brightness_pct", JValue.jint 50)], confidence := 1.0,
      interpretation := "", notes := [], matched_area := none } 50
    (by decide) (by decide) (by decide) (by decide) (by decide) (by decide)
  have hv : roundHalfAway (((50 : Int) : ℚ) * 255 / 100) = 128 := by
    rw [← convBrightness 50]
    decide
  have h1 := h.1
  rw [hv] at h1
  exact h1


/-! ## C7: the four-tier cascade of the resolvers -/

/-- Every `insOrd` insertion is a reordering: inserting `x` into `l` yields a
permutation of `x :: l`. -/
theorem insOrd_perm {α : Type} (le : α → α → Bool) (x : α) (l : List α) :
    (insOrd le x l).Perm (x :: l) := by
  induction l with
  | nil => exact List.Perm.refl _
  | cons y ys ih =>
      unfold insOrd
      by_cases h : le y x = true
      · rw [if_pos h]
        exact (List.Perm.cons y ih).trans (List.Perm.swap x y ys)
      · rw [if_neg h]

/-- The sorting fold permutes `acc ++ l`. -/
theorem stableSortBy_perm_aux {α : Type} (le : α → α → Bool) (l : List α) :
    ∀ acc : List α, (l.foldl (fun acc x => insOrd le x acc) acc).Perm (acc ++ l) := by
  induction l with
  | nil => intro acc; simp
  | cons x xs ih =>
      intro acc
      have h1 := ih (insOrd le x acc)
      have h2 : (insOrd le x acc ++ xs).Perm (acc ++ x :: xs) :=
        ((insOrd_perm le x acc).append_right xs).trans List.perm_middle.symm
      exact h1.trans h2

/-- `stableSortBy` permutes its input. -/
theorem stableSortBy_perm {α : Type} (le : α → α → Bool) (l : List α) :
    (stableSortBy le l).Perm l := by
  simpa using stableSortBy_perm_aux le l []

/-- The cascade shape of `find_entity` (fuzzy.rs): Exact short-circuits to a
Single; otherwise the first nonempty tier among Prefix, Typo, Fuzzy decides
the result, and None appears exactly when all four tiers are empty. -/
theorem find_entity_cascade (o : SkimOracle) (input : String) (cache : Cache) :
    (∀ m, entityExactPass input (lowerStr input) cache.entities = some m →
      find_entity o input cache = .Single m) ∧
    (entityExactPass input (lowerStr input) cache.entities = none →
      entityPrefixPass input (lowerStr input) cache.entities ≠ [] →
      decidedBy (find_entity o input cache)
        (entityPrefixPass input (lowerStr input) cache.entities)) ∧
    (entityExactPass input (lowerStr input) cache.entities = none →
      entityPrefixPass input (lowerStr input) cache.entities = [] →
      entityTypoPass input (lowerStr input) cache.entities ≠ [] →
      decidedBy (find_entity o input cache)
        (entityTypoPass input (lowerStr input) cache.entities)) ∧
    (entityExactPass input (lowerStr input) cache.entities = none →
      entityPrefixPass input (lowerStr input) cache.entities = [] →
      entityTypoPass input (lowerStr input) cache.entities = [] →
      entityFuzzyPass o input (lowerStr input) cache.entities ≠ [] →
      decidedBy (find_entity o input cache)
        (entityFuzzyPass o input (lowerStr input) cache.entities)) ∧
    (find_entity o input cache = .None ↔
      entityExactPass input (lowerStr input) cache.entities = none ∧
      entityPrefixPass input (lowerStr input) cache.entities = [] ∧
      entityTypoPass input (lowerStr input) cache.entities = [] ∧
      entityFuzzyPass o input (lowerStr input) cache.entities = []) := by
  refine ⟨?_, ?_, ?_, ?_, ?_⟩
  · intro m hex
    simp only [find_entity, hex]
  · intro hex hpne
    rcases hpm : entityPrefixPass input (lowerStr input) cache.entities with _ | ⟨m, _ | ⟨m2, rest⟩⟩
    · exact absurd hpm hpne
    · exact Or.inl ⟨m, by simp only [find_entity, hex, hpm], by simp⟩
    · exact Or.inr ⟨m :: m2 :: rest, by simp only [find_entity, hex, hpm], List.Perm.refl _⟩
  · intro hex hpm htne
    rcases htm : entityTypoPass input (lowerStr input) cache.entities with _ | ⟨m, _ | ⟨m2, rest⟩⟩
    · exact absurd htm htne
    · exact Or.inl ⟨m, by simp only [find_entity, hex, hpm, htm], by simp⟩
    · exact Or.inr ⟨stableSortBy confDescLe (m :: m2 :: rest),
        by simp only [find_entity, hex, hpm, htm],
        stableSortBy_perm confDescLe (m :: m2 :: rest)⟩
  · intro hex hpm htm hfne
    rcases hfz : entityFuzzyPass o input (lowerStr input) cache.entities with _ | ⟨m, rest⟩
    · exact absurd hfz hfne
    · have hperm := stableSortBy_perm prioConfLe (m :: rest)
      rcases hs : stableSortBy prioConfLe (m :: rest) with _ | ⟨m1, _ | ⟨m2, rest2⟩⟩
      · have hl := hperm.length_eq
        rw [hs] at hl
        simp at hl
      · refine Or.inl ⟨m1, by simp only [find_entity, hex, hpm, htm, hfz, hs], ?_⟩
        have hm1 : m1 ∈ stableSortBy prioConfLe (m :: rest) := by rw [hs]; simp
        exact hperm.subset hm1
      · refine Or.inr ⟨m1 :: m2 :: rest2, by simp only [find_entity, hex, hpm, htm, hfz, hs], ?_⟩
        rw [← hs]
        exact hperm
  · constructor
    · intro hnone
      cases hex : entityExactPass input (lowerStr input) cache.entities with
      | some m =>
          simp only [find_entity, hex] at hnone
          exact MatchResult.noConfusion hnone
      | none =>
        rcases hpm : entityPrefixPass input (lowerStr input) cache.entities with _ | ⟨m, _ | ⟨m2, r⟩⟩
        · rcases htm : entityTypoPass input (lowerStr input) cache.entities with _ | ⟨m, _ | ⟨m2, r⟩⟩
          · rcases hfz : entityFuzzyPass o input (lowerStr input) cache.entities with _ | ⟨m, r⟩
            · exact ⟨rfl, rfl, rfl, rfl⟩
            · simp only [find_entity, hex, hpm, htm, hfz] at hnone
              rcases hs : stableSortBy prioConfLe (m :: r) with _ | ⟨m1, _ | ⟨m2, r2⟩⟩
              all_goals simp only [hs] at hnone
              all_goals exact MatchResult.noConfusion hnone
          · simp only [find_entity, hex, hpm, htm] at hnone
            exact MatchResult.noConfusion hnone
          · simp only [find_entity, hex, hpm, htm] at hnone
            exact MatchResult.noConfusion hnone
        · simp only [find_entity, hex, hpm] at hnone
          exact MatchResult.noConfusion hnone
        · simp only [find_entity, hex, hpm] at hnone
          exact MatchResult.noConfusion hnone
    · rintro ⟨hex, hpm, htm, hfz⟩
      simp only [find_entity, hex, hpm, htm, hfz]

/-- The cascade shape of `find_area` (fuzzy.rs). -/
theorem find_area_cascade (o : SkimOracle) (input : String) (cache : Cache) :
    (∀ m, areaExactPass input (lowerStr input) cache.areas = some m →
      find_area o input cache = .Single m) ∧
    (areaExactPass input (lowerStr input) cache.areas = none →
      areaPrefixPass input (lowerStr input) cache.areas ≠ [] →
      decidedBy (find_area o input cache)
        (areaPrefixPass input (lowerStr input) cache.areas)) ∧
    (areaExactPass input (lowerStr input) cache.areas = none →
      areaPrefixPass input (lowerStr input) cache.areas = [] →
      areaTypoPass input (lowerStr input) cache.areas ≠ [] →
      decidedBy (find_area o input cache)
        (areaTypoPass input (lowerStr input) cache.areas)) ∧
    (areaExactPass input (lowerStr input) cache.areas = none →
      areaPrefixPass input (lowerStr input) cache.areas = [] →
      areaTypoPass input (lowerStr input) cache.areas = [] →
      areaFuzzyPass o input (lowerStr input) cache.areas ≠ [] →
      decidedBy (find_area o input cache)
        (areaFuzzyPass o input (lowerStr input) cache.areas)) ∧
    (find_area o input cache = .None ↔
      areaExactPass input (lowerStr input) cache.areas = none ∧
      areaPrefixPass input (lowerStr input) cache.areas = [] ∧
      areaTypoPass input (lowerStr input) cache.areas = [] ∧
      areaFuzzyPass o input (lowerStr input) cache.areas = []) := by
  refine ⟨?_, ?_, ?_, ?_, ?_⟩
  · intro m hex
    simp only [find_area, hex]
  · intro hex hpne
    rcases hpm : areaPrefixPass input (lowerStr input) cache.areas with _ | ⟨m, _ | ⟨m2, rest⟩⟩
    · exact absurd hpm hpne
    · exact Or.inl ⟨m, by simp only [find_area, hex, hpm], by simp⟩
    · exact Or.inr ⟨m :: m2 :: rest, by simp only [find_area, hex, hpm], List.Perm.refl _⟩
  · intro hex hpm htne
    rcases htm : areaTypoPass input (lowerStr input) cache.areas with _ | ⟨m, rest⟩
    · exact absurd htm htne
    · have hperm := stableSortBy_perm confDescLe (m :: rest)
      rcases hs : stableSortBy confDescLe (m :: rest) with _ | ⟨m1, _ | ⟨m2, rest2⟩⟩
      · have hl := hperm.length_eq
        rw [hs] at hl
        simp at hl
      · refine Or.inl ⟨m1, by simp only [find_area, hex, hpm, htm, hs], ?_⟩
        have hm1 : m1 ∈ stableSortBy confDescLe (m :: rest) := by rw [hs]; simp
        exact hperm.subset hm1
      · refine Or.inr ⟨m1 :: m2 :: rest2, by simp only [find_area, hex, hpm, htm, hs], ?_⟩
        rw [← hs]
        exact hperm
  · intro hex hpm htm hfne
    rcases hfz : areaFuzzyPass o input (lowerStr input) cache.areas with _ | ⟨m, rest⟩
    · exact absurd hfz hfne
    · have hperm := stableSortBy_perm confDescLe (m :: rest)
      rcases hs : stableSortBy confDescLe (m :: rest) with _ | ⟨m1, _ | ⟨m2, rest2⟩⟩
      · have hl := hperm.length_eq
        rw [hs] at hl
        simp at hl
      · refine Or.inl ⟨m1, by simp only [find_area, hex, hpm, htm, hfz, hs], ?_⟩
        have hm1 : m1 ∈ stableSortBy confDescLe (m :: rest) := by rw [hs]; simp
        exact hperm.subset hm1
      · refine Or.inr ⟨m1 :: m2 :: rest2,
          by simp only [find_area, hex, hpm, htm, hfz, hs], ?_⟩
        rw [← hs]
        exact hperm
  · constructor
    · intro hnone
      cases hex : areaExactPass input (lowerStr input) cache.areas with
      | some m =>
          simp only [find_area, hex] at hnone
          exact MatchResult.noConfusion hnone
      | none =>
        rcases hpm : areaPrefixPass input (lowerStr input) cache.areas with _ | ⟨m, _ | ⟨m2, r⟩⟩
        · rcases htm : areaTypoPass input (lowerStr input) cache.areas with _ | ⟨m, r⟩
          · rcases hfz : areaFuzzyPass o input (lowerStr input) cache.areas with _ | ⟨m, r⟩
            · exact ⟨rfl, rfl, rfl, rfl⟩
            · simp only [find_area, hex, hpm, htm, hfz] at hnone
              rcases hs : stableSortBy confDescLe (m :: r) with _ | ⟨m1, _ | ⟨m2, r2⟩⟩
              all_goals simp only [hs] at hnone
              all_goals exact MatchResult.noConfusion hnone
          · simp only [find_area, hex, hpm, htm] at hnone
            rcases hs : stableSortBy confDescLe (m :: r) with _ | ⟨m1, _ | ⟨m2, r2⟩⟩
            all_goals simp only [hs] at hnone
            all_goals exact MatchResult.noConfusion hnone
        · simp only [find_area, hex, hpm] at hnone
          exact MatchResult.noConfusion hnone
        · simp only [find_area, hex, hpm] at hnone
          exact MatchResult.noConfusion hnone
    · rintro ⟨hex, hpm, htm, hfz⟩
      simp only [find_area, hex, hpm, htm, hfz]

/-- The cascade shape of `find_service` (fuzzy.rs). -/
theorem find_service_cascade (o : SkimOracle) (input : String) (cache : Cache) :
    (∀ m, serviceExactPass input (lowerStr input)
        (serviceSplit input (lowerStr input)).1 (serviceSplit input (lowerStr input)).2
        cache.services = some m →
      find_service o input cache = .Single m) ∧
    (serviceExactPass input (lowerStr input)
        (serviceSplit input (lowerStr input)).1 (serviceSplit input (lowerStr input)).2
        cache.services = none →
      servicePrefixPass input (lowerStr input) cache.services ≠ [] →
      decidedBy (find_service o input cache)
        (servicePrefixPass input (lowerStr input) cache.services)) ∧
    (serviceExactPass input (lowerStr input)
        (serviceSplit input (lowerStr input)).1 (serviceSplit input (lowerStr input)).2
        cache.services = none →
      servicePrefixPass input (lowerStr input) cache.services = [] →
      serviceTypoPass input (lowerStr input) cache.services ≠ [] →
      decidedBy (find_service o input cache)
        (serviceTypoPass input (lowerStr input) cache.services)) ∧
    (serviceExactPass input (lowerStr input)
        (serviceSplit input (lowerStr input)).1 (serviceSplit input (lowerStr input)).2
        cache.services = none →
      servicePrefixPass input (lowerStr input) cache.services = [] →
      serviceTypoPass input (lowerStr input) cache.services = [] →
      serviceFuzzyPass o input (lowerStr input) cache.services ≠ [] →
      decidedBy (find_service o input cache)
        (serviceFuzzyPass o input (lowerStr input) cache.services)) ∧
    (find_service o input cache = .None ↔
      serviceExactPass input (lowerStr input)
        (serviceSplit input (lowerStr input)).1 (serviceSplit input (lowerStr input)).2
        cache.services = none ∧
      servicePrefixPass input (lowerStr input) cache.services = [] ∧
      serviceTypoPass input (lowerStr input) cache.services = [] ∧
      serviceFuzzyPass o input (lowerStr input) cache.services = []) := by
  refine ⟨?_, ?_, ?_, ?_, ?_⟩
  · intro m hex
    simp only [find_service, hex]
  · intro hex hpne
    rcases hpm : servicePrefixPass input (lowerStr input) cache.services with _ | ⟨m, _ | ⟨m2, rest⟩⟩
    · exact absurd hpm hpne
    · exact Or.inl ⟨m, by simp only [find_service, hex, hpm], by simp⟩
    · exact Or.inr ⟨m :: m2 :: rest, by simp only [find_service, hex, hpm], List.Perm.refl _⟩
  · intro hex hpm htne
    rcases htm : serviceTypoPass input (lowerStr input) cache.services with _ | ⟨m, rest⟩
    · exact absurd htm htne
    · have hperm := stableSortBy_perm confDescLe (m :: rest)
      rcases hs : stableSortBy confDescLe (m :: rest) with _ | ⟨m1, _ | ⟨m2, rest2⟩⟩
      · have hl := hperm.length_eq
        rw [hs] at hl
        simp at hl
      · refine Or.inl ⟨m1, by simp only [find_service, hex, hpm, htm, hs], ?_⟩
        have hm1 : m1 ∈ stableSortBy confDescLe (m :: rest) := by rw [hs]; simp
        exact hperm.subset hm1
      · refine Or.inr ⟨m1 :: m2 :: rest2, by simp only [find_service, hex, hpm, htm, hs], ?_⟩
        rw [← hs]
        exact hperm
  · intro hex hpm htm hfne
    rcases hfz : serviceFuzzyPass o input (lowerStr input) cache.services with _ | ⟨m, rest⟩
    · exact absurd hfz hfne
    · have hperm := stableSortBy_perm confDescLe (m :: rest)
      rcases hs : stableSortBy confDescLe (m :: rest) with _ | ⟨m1, _ | ⟨m2, rest2⟩⟩
      · have hl := hperm.length_eq
        rw [hs] at hl
        simp at hl
      · refine Or.inl ⟨m1, by simp only [find_service, hex, hpm, htm, hfz, hs], ?_⟩
        have hm1 : m1 ∈ stableSortBy confDescLe (m :: rest) := by rw [hs]; simp
        exact hperm.subset hm1
      · refine Or.inr ⟨m1 :: m2 :: rest2,
          by simp only [find_service, hex, hpm, htm, hfz, hs], ?_⟩
        rw [← hs]
        exact hperm
  · constructor
    · intro hnone
      cases hex : serviceExactPass input (lowerStr input)
          (serviceSplit input (lowerStr input)).1 (serviceSplit input (lowerStr input)).2
          cache.services with
      | some m =>
          simp only [find_service, hex] at hnone
          exact MatchResult.noConfusion hnone
      | none =>
        rcases hpm : servicePrefixPass input (lowerStr input) cache.services with _ | ⟨m, _ | ⟨m2, r⟩⟩
        · rcases htm : serviceTypoPass input (lowerStr input) cache.services with _ | ⟨m, r⟩
          · rcases hfz : serviceFuzzyPass o input (lowerStr input) cache.services with _ | ⟨m, r⟩
            · exact ⟨rfl, rfl, rfl, rfl⟩
            · simp only [find_service, hex, hpm, htm, hfz] at hnone
              rcases hs : stableSortBy confDescLe (m :: r) with _ | ⟨m1, _ | ⟨m2, r2⟩⟩
              all_goals simp only [hs] at hnone
              all_goals exact MatchResult.noConfusion hnone
          · simp only [find_service, hex, hpm, htm] at hnone
            rcases hs : stableSortBy confDescLe (m :: r) with _ | ⟨m1, _ | ⟨m2, r2⟩⟩
            all_goals simp only [hs] at hnone
            all_goals exact MatchResult.noConfusion hnone
        · simp only [find_service, hex, hpm] at hnone
          exact MatchResult.noConfusion hnone
        · simp only [find_service, hex, hpm] at hnone
          exact MatchResult.noConfusion hnone
    · rintro ⟨hex, hpm, htm, hfz⟩
      simp only [find_service, hex, hpm, htm, hfz]

/-- The cascade shape of `find_domain` (fuzzy.rs): only three tiers — None
appears exactly when Exact, Prefix and Typo are all empty; no fuzzy tier is
consulted (the function does not even take the skim matcher). -/
theorem find_domain_cascade (input : String) (cache : Cache) :
    (∀ m, domainExactPass input (lowerStr input) (to_singular (lowerStr input))
        cache.domains = some m →
      find_domain input cache = .Single m) ∧
    (domainExactPass input (lowerStr input) (to_singular (lowerStr input))
        cache.domains = none →
      domainPrefixPass input (lowerStr input) (to_singular (lowerStr input))
        cache.domains ≠ [] →
      decidedBy (find_domain input cache)
        (domainPrefixPass input (lowerStr input) (to_singular (lowerStr input))
          cache.domains)) ∧
    (domainExactPass input (lowerStr input) (to_singular (lowerStr input))
        cache.domains = none →
      domainPrefixPass input (lowerStr input) (to_singular (lowerStr input))
        cache.domains = [] →
      domainTypoPass input (lowerStr input) cache.domains ≠ [] →
      decidedBy (find_domain input cache)
        (domainTypoPass input (lowerStr input) cache.domains)) ∧
    (find_domain input cache = .None ↔
      domainExactPass input (lowerStr input) (to_singular (lowerStr input))
        cache.domains = none ∧
      domainPrefixPass input (lowerStr input) (to_singular (lowerStr input))
        cache.domains = [] ∧
      domainTypoPass input (lowerStr input) cache.domains = []) := by
  refine ⟨?_, ?_, ?_, ?_⟩
  · intro m hex
    simp only [find_domain, hex]
  · intro hex hpne
    rcases hpm : domainPrefixPass input (lowerStr input) (to_singular (lowerStr input))
        cache.domains with _ | ⟨m, _ | ⟨m2, rest⟩⟩
    · exact absurd hpm hpne
    · exact Or.inl ⟨m, by simp only [find_domain, hex, hpm], by simp⟩
    · exact Or.inr ⟨m :: m2 :: rest, by simp only [find_domain, hex, hpm], List.Perm.refl _⟩
  · intro hex hpm htne
    rcases htm : domainTypoPass input (lowerStr input) cache.domains with _ | ⟨m, rest⟩
    · exact absurd htm htne
    · have hperm := stableSortBy_perm confDescLe (m :: rest)
      rcases hs : stableSortBy confDescLe (m :: rest) with _ | ⟨m1, _ | ⟨m2, rest2⟩⟩
      · have hl := hperm.length_eq
        rw [hs] at hl
        simp at hl
      · refine Or.inl ⟨m1, by simp only [find_domain, hex, hpm, htm, hs], ?_⟩
        have hm1 : m1 ∈ stableSortBy confDescLe (m :: rest) := by rw [hs]; simp
        exact hperm.subset hm1
      · refine Or.inr ⟨m1 :: m2 :: rest2, by simp only [find_domain, hex, hpm, htm, hs], ?_⟩
        rw [← hs]
        exact hperm
  · constructor
    · intro hnone
      cases hex : domainExactPass input (lowerStr input) (to_singular (lowerStr input))
          cache.domains with
      | some m =>
          simp only [find_domain, hex] at hnone
          exact MatchResult.noConfusion hnone
      | none =>
        rcases hpm : domainPrefixPass input (lowerStr input) (to_singular (lowerStr input))
            cache.domains with _ | ⟨m, _ | ⟨m2, r⟩⟩
        · rcases htm : domainTypoPass input (lowerStr input) cache.domains with _ | ⟨m, r⟩
          · exact ⟨rfl, rfl, rfl⟩
          · simp only [find_domain, hex, hpm, htm] at hnone
            rcases hs : stableSortBy confDescLe (m :: r) with _ | ⟨m1, _ | ⟨m2, r2⟩⟩
            all_goals simp only [hs] at hnone
            all_goals exact MatchResult.noConfusion hnone
        · simp only [find_domain, hex, hpm] at hnone
          exact MatchResult.noConfusion hnone
        · simp only [find_domain, hex, hpm] at hnone
          exact MatchResult.noConfusion hnone
    · rintro ⟨hex, hpm, htm⟩
      simp only [find_domain, hex, hpm, htm]

/-- C7 (corrected): `find_entity`, `find_area` and `find_service` follow the
strict Exact → Prefix → Typo → Fuzzy cascade — the first tier with at least
one candidate decides the result and None requires all four tiers empty — but
`find_domain` runs only the first three tiers: it returns None as soon as
Exact, Prefix and Typo all produce nothing, without any fuzzy tier. -/
theorem C7_cascade (o : SkimOracle) (input : String) (cache : Cache) :
  (
      (∀ m, entityExactPass input (lowerStr input) cache.entities = some m →
        find_entity o input cache = .Single m) ∧
      (entityExactPass input (lowerStr input) cache.entities = none →
        entityPrefixPass input (lowerStr input) cache.entities ≠ [] →
        decidedBy (find_entity o input cache)
          (entityPrefixPass input (lowerStr input) cache.entities)) ∧
      (entityExactPass input (lowerStr input) cache.entities = none →
        entityPrefixPass input (lowerStr input) cache.entities = [] →
        entityTypoPass input (lowerStr input) cache.entities ≠ [] →
        decidedBy (find_entity o input cache)
          (entityTypoPass input (lowerStr input) cache.entities)) ∧
      (entityExactPass input (lowerStr input) cache.entities = none →
        entityPrefixPass input (lowerStr input) cache.entities = [] →
        entityTypoPass input (lowerStr input) cache.entities = [] →
        entityFuzzyPass o input (lowerStr input) cache.entities ≠ [] →
        decidedBy (find_entity o input cache)
          (entityFuzzyPass o input (lowerStr input) cache.entities)) ∧
      (find_entity o input cache = .None ↔
        entityExactPass input (lowerStr input) cache.entities = none ∧
        entityPrefixPass input (lowerStr input) cache.entities = [] ∧
        entityTypoPass input (lowerStr input) cache.entities = [] ∧
        entityFuzzyPass o input (lowerStr input) cache.entities = [])) ∧
  (
      (∀ m, areaExactPass input (lowerStr input) cache.areas = some m →
        find_area o input cache = .Single m) ∧
      (areaExactPass input (lowerStr input) cache.areas = none →
        areaPrefixPass input (lowerStr input) cache.areas ≠ [] →
        decidedBy (find_area o input cache)
          (areaPrefixPass input (lowerStr input) cache.areas)) ∧
      (areaExactPass input (lowerStr input) cache.areas = none →
        areaPrefixPass input (lowerStr input) cache.areas = [] →
        areaTypoPass input (lowerStr input) cache.areas ≠ [] →
        decidedBy (find_area o input cache)
          (areaTypoPass input (lowerStr input) cache.areas)) ∧
      (areaExactPass input (lowerStr input) cache.areas = none →
        areaPrefixPass input (lowerStr input) cache.areas = [] →
        areaTypoPass input (lowerStr input) cache.areas = [] →
        areaFuzzyPass o input (lowerStr input) cache.areas ≠ [] →
        decidedBy (find_area o input cache)
          (areaFuzzyPass o input (lowerStr input) cache.areas)) ∧
      (find_area o input cache = .None ↔
        areaExactPass input (lowerStr input) cache.areas = none ∧
        areaPrefixPass input (lowerStr input) cache.areas = [] ∧
        areaTypoPass input (lowerStr input) cache.areas = [] ∧
        areaFuzzyPass o input (lowerStr input) cache.areas = [])) ∧
  (
      (∀ m, serviceExactPass input (lowerStr input)
          (serviceSplit input (lowerStr input)).1 (serviceSplit input (lowerStr input)).2
          cache.services = some m →
        find_service o input cache = .Single m) ∧
      (serviceExactPass input (lowerStr input)
          (serviceSplit input (lowerStr input)).1 (serviceSplit input (lowerStr input)).2
          cache.services = none →
        servicePrefixPass input (lowerStr input) cache.services ≠ [] →
        decidedBy (find_service o input cache)
          (servicePrefixPass input (lowerStr input) cache.services)) ∧
      (serviceExactPass input (lowerStr input)
          (serviceSplit input (lowerStr input)).1 (serviceSplit input (lowerStr input)).2
          cache.services = none →
        servicePrefixPass input (lowerStr input) cache.services = [] →
        serviceTypoPass input (lowerStr input) cache.services ≠ [] →
        decidedBy (find_service o input cache)
          (serviceTypoPass input (lowerStr input) cache.services)) ∧
      (serviceExactPass input (lowerStr input)
          (serviceSplit input (lowerStr input)).1 (serviceSplit input (lowerStr input)).2
          cache.services = none →
        servicePrefixPass input (lowerStr input) cache.services = [] →
        serviceTypoPass input (lowerStr input) cache.services = [] →
        serviceFuzzyPass o input (lowerStr input) cache.services ≠ [] →
        decidedBy (find_service o input cache)
          (serviceFuzzyPass o input (lowerStr input) cache.services)) ∧
      (find_service o input cache = .None ↔
        serviceExactPass input (lowerStr input)
          (serviceSplit input (lowerStr input)).1 (serviceSplit input (lowerStr input)).2
          cache.services = none ∧
        servicePrefixPass input (lowerStr input) cache.services = [] ∧
        serviceTypoPass input (lowerStr input) cache.services = [] ∧
        serviceFuzzyPass o input (lowerStr input) cache.services = [])) ∧
  (
      (∀ m, domainExactPass input (lowerStr input) (to_singular (lowerStr input))
          cache.domains = some m →
        find_domain input cache = .Single m) ∧
      (domainExactPass input (lowerStr input) (to_singular (lowerStr input))
          cache.domains = none →
        domainPrefixPass input (lowerStr input) (to_singular (lowerStr input))
          cache.domains ≠ [] →
        decidedBy (find_domain input cache)
          (domainPrefixPass input (lowerStr input) (to_singular (lowerStr input))
            cache.domains)) ∧
      (domainExactPass input (lowerStr input) (to_singular (lowerStr input))
          cache.domains = none →
        domainPrefixPass input (lowerStr input) (to_singular (lowerStr input))
          cache.domains = [] →
        domainTypoPass input (lowerStr input) cache.domains ≠ [] →
        decidedBy (find_domain input cache)
          (domainTypoPass input (lowerStr input) cache.domains)) ∧
      (find_domain input cache = .None ↔
        domainExactPass input (lowerStr input) (to_singular (lowerStr input))
          cache.domains = none ∧
        domainPrefixPass input (lowerStr input) (to_singular (lowerStr input))
          cache.domains = [] ∧
        domainTypoPass input (lowerStr input) cache.domains = [])) :=
  ⟨find_entity_cascade o input cache, find_area_cascade o input cache,
   find_service_cascade o input cache, find_domain_cascade input cache⟩

/-- C7 counterexample: on the input "zzzz" over a registry whose only domain
is "light", `find_domain` returns None although the fuzzy tier the spec
describes (modelled as `domainFuzzyPassSpec`, under an oracle scoring every
pair 100) is nonempty — the fourth tier of the claimed cascade does not exist
in `find_domain`. -/
theorem C7_counterexample :
    find_domain "zzzz" cacheOneLight = .None ∧
    domainFuzzyPassSpec oAll100 "zzzz" (lowerStr "zzzz") cacheOneLight.domains ≠ [] := by
  refine ⟨by decide, by decide⟩

end Hmr
